import Mathlib

/-!
Verification development for the tlaloc_api_builder repository
(src/tlaloc_api_builder/builder.py).

The Python builder class is shallowly embedded: pure helpers become Lean
functions, the stateful build steps become explicit state passing, raising an
exception becomes returning Except.error with the message raised by the code.
Python dictionaries with string values are modelled as insertion ordered
association lists of pairs of strings (the code only ever stores strings in
the places the claims touch; the timestamp, an int, is modelled as a Nat
field of the builder).

The external package tlaloc_commons is not part of this repository; its
digest commons.get_hash is abstracted as a function parameter H, and its verb
set commons.http_methods is modelled from the spec.
-/

deriving instance DecidableEq for Except

namespace TlalocApiBuilder

/-! ### Python string primitives

Counterparts of the Python string and os.path operations used by builder.py,
written over List Char so that every proof and every concrete evaluation can
proceed by structural computation. -/

/-- Whitespace characters stripped by str.strip (ASCII subset, which is all
that occurs in the source files the preprocessor sees). -/
def pyIsSpace (c : Char) : Bool := c = ' ' || c = '\t' || c = '\n' || c = '\r'

/-- Python str.strip. -/
def pyStrip (s : String) : String :=
  String.mk (((s.data.dropWhile pyIsSpace).reverse.dropWhile pyIsSpace).reverse)

/-- Python str.startswith. -/
def pyStartsWith (s pre : String) : Bool := pre.data.isPrefixOf s.data

/-- Python str.endswith. -/
def pyEndsWith (s suf : String) : Bool := suf.data.reverse.isPrefixOf s.data.reverse

/-- Splitting a character list at every occurrence of the separator, the
semantics of Python str.split with an explicit one character separator:
the result is never empty and consecutive separators yield empty fields. -/
def splitChAux (sep : Char) : List Char → List (List Char)
  | [] => [[]]
  | c :: cs =>
    match splitChAux sep cs with
    | [] => []
    | h :: t => if c = sep then [] :: h :: t else (c :: h) :: t

/-- Python s.split(sep) for a one character separator. -/
def pySplitCh (sep : Char) (s : String) : List String :=
  (splitChAux sep s.data).map String.mk

/-- Python s.split("/"). -/
def pySplit (s : String) : List String := pySplitCh '/' s

/-- Python "/".join. -/
def joinSlash : List String → String
  | [] => ""
  | [s] => s
  | s :: rest => s ++ "/" ++ joinSlash rest

/-- Python os.path.join for two components (posix). -/
def pjoin (p t : String) : String :=
  if pyStartsWith t "/" then t
  else if p = "" then t
  else if pyEndsWith p "/" then p ++ t
  else p ++ "/" ++ t

/-- Python os.path.dirname (posix): everything before the last slash, with
trailing slashes stripped unless the head is all slashes. -/
def pdirname (p : String) : String :=
  let head := (p.data.reverse.dropWhile (fun c => c ≠ '/')).reverse
  if head.all (fun c => c = '/') then String.mk head
  else String.mk ((head.reverse.dropWhile (fun c => c = '/')).reverse)

/-- Python os.path.basename (posix): everything after the last slash. -/
def pbasename (p : String) : String :=
  String.mk ((p.data.reverse.takeWhile (fun c => c ≠ '/')).reverse)

/-- The parent of a resource path as builder.py computes it in several places:
"/".join(resource.split("/")[:-1]). -/
def parent_path (r : String) : String := joinSlash ((pySplit r).dropLast)

/-- First-match lookup in an association list, the semantics of reading a
Python dict key (keys are unique by construction everywhere we build these). -/
def lookup (config : List (String × String)) (k : String) : Option String :=
  (config.find? (fun p => p.1 == k)).map (fun p => p.2)

/-! ### Topology data model

The file tree built by builder._get_filetree is a nested Python dict mapping
a directory name to a sub dict and a file name to None.  It is embedded as a
first order tree: file is the None marker, and a dict is a chain of
(name, value) entries ended by dirNil, in insertion (scan) order. -/

inductive FileTree where
  | file : FileTree
  | dirNil : FileTree
  | dirCons (name : String) (child : FileTree) (rest : FileTree) : FileTree
deriving DecidableEq, Repr

/-- Modelled from the spec: commons.http_methods of the external
tlaloc_commons package (not in this repository).  Spec section 3 fixes the
recognized verb set as GET, POST, PUT, DELETE, PATCH, HEAD, OPTIONS, ANY. -/
def http_methods : List String :=
  ["GET", "POST", "PUT", "DELETE", "PATCH", "HEAD", "OPTIONS", "ANY"]

/-- builder._get_structure, first pass: remove_null_keys drops every entry
whose value is None (a file) and keeps every dict entry, recursively. -/
def remove_null_keys : FileTree → FileTree
  | .file => .file
  | .dirNil => .dirNil
  | .dirCons k v rest =>
    match v with
    | .file => remove_null_keys rest
    | .dirNil => .dirCons k .dirNil (remove_null_keys rest)
    | .dirCons a b c => .dirCons k (remove_null_keys (.dirCons a b c)) (remove_null_keys rest)

/-- Python truthiness of a dict value: None and the empty dict are falsy. -/
def pyFalsy : FileTree → Bool
  | .file => true
  | .dirNil => true
  | .dirCons _ _ _ => false

/-- builder._get_structure, second pass: check_http_methods walks the
stripped tree and raises ValueError on the first empty entry whose key is not
a recognized verb. -/
def check_http_methods : FileTree → Except String Unit
  | .file => .ok ()
  | .dirNil => .ok ()
  | .dirCons k v rest =>
    if pyFalsy v then
      if http_methods.contains k then check_http_methods rest
      else .error ("Invalid HTTP method: " ++ k)
    else do
      _ ← check_http_methods v
      check_http_methods rest

/-- builder._get_structure: strip files, validate the leaves, store the
stripped tree. -/
def get_structure (filetree : FileTree) : Except String FileTree :=
  let s := remove_null_keys filetree
  (check_http_methods s).map (fun _ => s)

/-- True when the tree faithfully encodes a nested Python dict whose values
are dicts or None: the top level is a dict and every rest chain is a dict.
Every tree produced by builder._get_filetree has this shape. -/
def dictTree : FileTree → Bool
  | .file => false
  | .dirNil => true
  | .dirCons _ v rest => (v == FileTree.file || dictTree v) && dictTree rest

/-- True when every entry value is itself a dict (no None values anywhere),
the shape of the output of remove_null_keys on a dict tree. -/
def cleanTree : FileTree → Bool
  | .file => false
  | .dirNil => true
  | .dirCons _ v rest => cleanTree v && cleanTree rest

/-- Names of the leaf directories of a stripped tree: the entries whose value
is an empty dict, i.e. the directories with no subdirectories.  This is the
vocabulary of the spec sentence on topology validation, stated independently
of the first-error iteration of check_http_methods. -/
def leafNames : FileTree → List String
  | .file => []
  | .dirNil => []
  | .dirCons k v rest =>
    (if v == FileTree.dirNil then [k] else leafNames v) ++ leafNames rest

/-! ### Method extraction (builder._get_methods)

The traversal keeps a running filesystem path, starting at
os.path.join(config path, "API").  A token that is a recognized verb becomes
one method record; the identity hash input is
f"{deployer}-{path}/{token}" where path is the filesystem path of the parent
directory, and the resource is "/".join(path_sources.split("/")[2:-1]). -/

structure MethodRec where
  hash : String
  method : String
  zip : String
  json : String
  path_sources : String
  resource : String
  path_temporal : String
deriving DecidableEq, Repr

/-- One entry of building["methods"], as built for a verb token found at the
filesystem path given (H abstracts commons.get_hash, mt abstracts
os.path.getmtime, ptr is config["path_temporal"]). -/
def mkMethodRec (H : String → String) (deployer ptr : String) (mt : String → Nat)
    (path token : String) : MethodRec :=
  let path_sources := pjoin path token
  let method_hash := H (deployer ++ "-" ++ path ++ "/" ++ token)
  let last_change := mt path_sources
  { hash := method_hash
  , method := token
  , zip := toString last_change ++ "-" ++ method_hash ++ ".zip"
  , json := toString last_change ++ "-" ++ method_hash ++ ".json"
  , path_sources := path_sources
  , resource := joinSlash (((pySplit path_sources).drop 2).dropLast)
  , path_temporal := pjoin ptr method_hash }

/-- builder._get_methods inner recursion, in iteration order.  The branch on
the token being a verb mirrors the code: a verb named entry stops the
recursion whether or not it has children. -/
def get_methods (H : String → String) (deployer ptr : String) (mt : String → Nat) :
    FileTree → String → List MethodRec
  | .file, _ => []
  | .dirNil, _ => []
  | .dirCons k v rest, path =>
    (if http_methods.contains k then [mkMethodRec H deployer ptr mt path k]
     else get_methods H deployer ptr mt v (pjoin path k))
      ++ get_methods H deployer ptr mt rest path

/-- builder._get_methods entry point: the walk starts at
config["path_sources"] = os.path.join(config["path"], "API"). -/
def get_methods_top (H : String → String) (deployer path ptr : String)
    (mt : String → Nat) (struct : FileTree) : List MethodRec :=
  get_methods H deployer ptr mt struct (pjoin path "API")

/-- Stated from the spec, for comparison with the code: the resource path of
each method is the slash joined directory segments strictly between the API
root folder and the verb leaf.  Same traversal order as get_methods so the
two method lists align position by position. -/
def methodResourcesSpec : FileTree → List String → List String
  | .file, _ => []
  | .dirNil, _ => []
  | .dirCons k v rest, segs =>
    (if http_methods.contains k then [joinSlash segs]
     else methodResourcesSpec v (segs ++ [k]))
      ++ methodResourcesSpec rest segs

/-! ### Preprocessor (builder._clean_mjs)

A rule is the triple [key, "==", value] the code builds from an IF directive.
The per line state is the active rule list (pushed at the end, popped from
the end) and the retained output lines.  Raising becomes Except.error with
the message of the Python exception (KeyError and IndexError are rendered
with a fixed prefix). -/

abbrev Rule := String × String × String

/-- The write condition loop: iterate the active rules in order; a rule whose
operator is == reads config[key] (KeyError when the key is missing) and keeps
going on equality; the first rule that does not hold stops the loop with
write = False. -/
def eval_rules (config : List (String × String)) : List Rule → Except String Bool
  | [] => .ok true
  | (k, op, v) :: rest =>
    if op == "==" then
      match lookup config k with
      | none => .error ("KeyError: " ++ k)
      | some val => if val == v then eval_rules config rest else .ok false
    else .ok false

structure CleanState where
  rules : List Rule
  out : List String
deriving DecidableEq, Repr

/-- One line of builder._clean_mjs. -/
def clean_step (config : List (String × String)) (st : CleanState) (line : String) :
    Except String CleanState :=
  let ls := pyStrip line
  if pyStartsWith ls "//// IF" then
    match (pySplitCh ' ' ls)[2]?, (pySplitCh ' ' ls)[3]? with
    | some k, some v =>
      let rule : Rule := (k, "==", v)
      if st.rules.contains rule then .error "Rule is already in use"
      else .ok { st with rules := st.rules ++ [rule] }
    | _, _ => .error "IndexError: list index out of range"
  else if pyStartsWith ls "//// ENDIF" then
    if st.rules = [] then .error "No rule to close"
    else .ok { st with rules := st.rules.dropLast }
  else
    match eval_rules config st.rules with
    | .error e => .error e
    | .ok true => .ok { st with out := st.out ++ [line] }
    | .ok false => .ok st

/-- builder._clean_mjs on the list of lines of a file: the retained lines in
order, or the first raised error.  There is no check of the rule stack after
the last line; the function simply writes the retained lines back. -/
def clean_mjs (config : List (String × String)) (lines : List String) :
    Except String (List String) := do
  let final ← lines.foldlM (clean_step config) ⟨[], []⟩
  pure final.out

/-- The rule a directive line would push (total; fields default to "" on a
malformed directive, which clean_step rejects as IndexError anyway). -/
def lineRule (line : String) : Rule :=
  (((pySplitCh ' ' (pyStrip line))[2]?).getD "", "==",
    ((pySplitCh ' ' (pyStrip line))[3]?).getD "")

/-- Classification of a line, mirroring the if/elif chain of clean_step. -/
def isIFLine (l : String) : Bool := pyStartsWith (pyStrip l) "//// IF"

def isENDIFLine (l : String) : Bool :=
  !isIFLine l && pyStartsWith (pyStrip l) "//// ENDIF"

/-- Stated from the spec, for comparison with the code: every condition on
the enclosing stack currently holds, all conditions conjoined, each condition
being equality of the configured value with the expected value. -/
def allHold (config : List (String × String)) (stack : List Rule) : Bool :=
  stack.all (fun r => lookup config r.1 == some r.2.2)

/-- Stated from the spec, for comparison with the code: a content line is
kept exactly when every condition on the enclosing directive stack holds; the
stack itself is determined purely by the IF/ENDIF nesting. -/
def stack_filter (config : List (String × String)) :
    List Rule → List String → List String
  | _, [] => []
  | stack, l :: rest =>
    if isIFLine l then stack_filter config (stack ++ [lineRule l]) rest
    else if isENDIFLine l then stack_filter config stack.dropLast rest
    else (if allHold config stack then [l] else []) ++ stack_filter config stack rest

/-- Structural scan of the directive nesting alone: true when some ENDIF line
is reached with nesting depth zero. -/
def unmatchedEndif : Nat → List String → Bool
  | _, [] => false
  | d, l :: rest =>
    if isIFLine l then unmatchedEndif (d + 1) rest
    else if isENDIFLine l then (if d = 0 then true else unmatchedEndif (d - 1) rest)
    else unmatchedEndif d rest

/-! ### Builder construction and deployment gate (builder.__init__, deploy) -/

structure Builder where
  path : String
  path_sources : String
  path_temporal : String
  path_documentation : String
  name : String
  deployer : String
  provider : String
  version : String
  description : String
  title : String
  timestamp : Nat
  aws_profile : String
  aws_region : String
  aws_bucket : String
  aws_stage : String
  aws_stack : String
  aws_stack_file : String
  built : Bool
  deployed : Bool
deriving DecidableEq, Repr

/-- builder.__init__.  fsExists abstracts os.path.exists, fsList abstracts
os.listdir, now abstracts int(time.time()), H abstracts commons.get_hash.
Values are modelled as strings, so the isinstance(..., str) tests of the code
are always true and the falsy test of a missing or empty value decides each
validation; this covers every configuration the claims quantify over. -/
def builder_init (H : String → String) (fsExists : String → Bool)
    (fsList : String → List String) (now : Nat)
    (config : List (String × String)) : Except String Builder :=
  let pathVal := (lookup config "path").getD ""
  if pathVal == "" || pyStrip pathVal == "" || !fsExists pathVal then
    .error "Config must be a non empty string that corresponds to an existing path"
  else if !((fsList pathVal).contains "API") then
    .error "The path must contain a folder named \"API\""
  else
    let path_sources := pjoin pathVal "API"
    let path_temporal := pjoin (pdirname pathVal) ("." ++ pbasename path_sources)
    let path_documentation := pjoin (pdirname pathVal) "docs"
    let nameVal := (lookup config "name").getD ""
    if nameVal == "" || pyStrip nameVal == "" then
      .error "Config must be a non empty string parameter name"
    else
      let deployerVal := (lookup config "deployer").getD ""
      if deployerVal == "" || pyStrip deployerVal == "" then
        .error "Config must have a non empty string parameter named deployer"
      else
        let providerVal := (lookup config "provider").getD ""
        if providerVal == "" || pyStrip providerVal == "" then
          .error "Config must have a non empty string parameter named provider"
        else
          -- The version, description and title guards of the code read
          -- config.get(key), which tolerates an absent key, but the stores
          -- that follow read config[key] unconditionally: KeyError when the
          -- optional key is missing from the dict.
          match lookup config "version" with
          | none => .error "KeyError: version"
          | some versionVal =>
            match lookup config "description" with
            | none => .error "KeyError: description"
            | some descriptionVal =>
              match lookup config "title" with
              | none => .error "KeyError: title"
              | some titleVal =>
                if providerVal == "aws" then
                  let profileVal := (lookup config "aws_profile").getD ""
                  if profileVal == "" || pyStrip profileVal == "" then
                    .error "Config must be a non empty string parameter aws_profile"
                  else
                    let regionVal := (lookup config "aws_region").getD ""
                    if regionVal == "" || pyStrip regionVal == "" then
                      .error "Config must be a non empty string parameter aws_region"
                    else
                      let bucketVal := (lookup config "aws_bucket").getD ""
                      if bucketVal == "" || pyStrip bucketVal == "" then
                        .error "Config must be a non empty string parameter aws_bucket"
                      else
                        let stageVal := (lookup config "aws_stage").getD ""
                        if stageVal == "" || pyStrip stageVal == "" then
                          .error "Config must be a non empty string parameter aws_stage"
                        else
                          let stackVal := (lookup config "aws_stack").getD ""
                          if stackVal == "" || pyStrip stackVal == "" then
                            .error "Config must be a non empty string parameter aws_stack"
                          else
                            .ok { path := pathVal
                                , path_sources := path_sources
                                , path_temporal := path_temporal
                                , path_documentation := path_documentation
                                , name := nameVal
                                , deployer := deployerVal
                                , provider := providerVal
                                , version := versionVal
                                , description := descriptionVal
                                , title := titleVal
                                , timestamp := now
                                , aws_profile := profileVal
                                , aws_region := regionVal
                                , aws_bucket := bucketVal
                                , aws_stage := stageVal
                                , aws_stack := stackVal
                                , aws_stack_file := H (deployerVal ++ "/" ++ stackVal)
                                , built := false
                                , deployed := false }
                else .error "Invalid provider"

/-- builder.deploy: the built flag, set to False in __init__ and to True only
by the last statement of a successful build(), gates everything; the actual
upload and stack submission (_aws_deploy) is an external effect that is only
reached past both guards, modelled here by the deployed flag flip. -/
def deploy (b : Builder) : Except String Builder :=
  if !b.built then .error "API must be built before deploying"
  else if b.provider == "aws" then .ok { b with deployed := true }
  else .error "Invalid provider"

/-! ### API gateway template graph (builder._aws_build_apigateway)

The CloudFormation Resources dict is modelled as the list of (logical id,
node) insertions, in the order the code performs them.  Each node keeps the
properties the claims are about. -/

inductive ParentRef where
  | rootResourceId : ParentRef
  | ref (logicalId : String) : ParentRef
deriving DecidableEq, Repr

inductive TRes where
  | restApi (name : String) : TRes
  | deployment (dependsOn : List String) : TRes
  | stage (deploymentId stageName : String) : TRes
  | resource (parentId : ParentRef) (pathPart : String) : TRes
  | corsOptions (resourceId : ParentRef) (integrationType : String)
      (responseHeaders : List String) : TRes
  | stack (templateURL : String) (parResourceId : ParentRef) : TRes
deriving DecidableEq, Repr

/-- The resources_methods dict accumulation: a missing resource key is
appended with an empty list, then the verb is appended to its entry. -/
def add_resource_method (acc : List (String × List String)) (r v : String) :
    List (String × List String) :=
  match acc with
  | [] => [(r, [v])]
  | (k, vs) :: rest =>
    if k == r then (k, vs ++ [v]) :: rest
    else (k, vs) :: add_resource_method rest r v

/-- resources_methods: resource path to the list of its explicit verbs, keyed
in first occurrence order over building["methods"]. -/
def resources_methods_of (ms : List MethodRec) : List (String × List String) :=
  ms.foldl (fun acc m => add_resource_method acc m.resource m.method) []

/-- The inner while loop collecting a resource path and all its ancestors
into resources_all.  The loop strictly shortens the path each turn, so fuel
of length r + 1 is always enough (climb_fuel_enough below). -/
def climb : Nat → List String → String → List String
  | 0, acc, _ => acc
  | fuel + 1, acc, r =>
    if r == "" then acc
    else climb fuel (if acc.contains r then acc else acc ++ [r]) (parent_path r)

/-- resources_all: every resource path and every ancestor prefix, in the
order the while loop appends them. -/
def resources_all_of (resourceList : List String) : List String :=
  resourceList.foldl (fun acc r => climb (r.length + 1) acc r) []

/-- The fixed CORS response header names of the synthesized OPTIONS method
(present in both the IntegrationResponses and the MethodResponses of the
code). -/
def corsHeaders : List String :=
  ["method.response.header.Access-Control-Allow-Headers",
   "method.response.header.Access-Control-Allow-Methods",
   "method.response.header.Access-Control-Allow-Origin"]

/-- The synthesized CORS OPTIONS node for a resource path: a MOCK integration
with the three Access-Control-Allow response headers, attached to the
resource node of the path, or to the API root when the path is empty. -/
def corsNode (H : String → String) (r : String) : TRes :=
  .corsOptions (if r.length > 0 then .ref (H r ++ "Resource") else .rootResourceId)
    "MOCK" corsHeaders

/-- builder._aws_build_apigateway: the aggregate template Resources, as the
ordered list of insertions: the gateway, the deployment node (DependsOn =
["apiGateway"] followed by one {hash}Stack per method), the stage, one
Resource node per path in resources_all, one synthesized CORS OPTIONS node
per resource path with no explicit OPTIONS verb, and one nested stack node
per method. -/
def aws_build_apigateway (H : String → String) (b : Builder) (ms : List MethodRec) :
    List (String × TRes) :=
  let dependence := "apiGateway" :: ms.map (fun m => m.hash ++ "Stack")
  let rm := resources_methods_of ms
  let ra := resources_all_of (rm.map (fun p => p.1))
  [("apiGateway", .restApi b.name),
   ("apiGatewayDeployment" ++ toString b.timestamp, .deployment dependence),
   ("apiGatewayStage",
     .stage ("apiGatewayDeployment" ++ toString b.timestamp) b.aws_stage)]
  ++ ra.map (fun r =>
       (H r ++ "Resource",
        .resource
          (if (pySplit r).length > 1 then .ref (H (parent_path r) ++ "Resource")
           else .rootResourceId)
          (((pySplit r).getLast?).getD "")))
  ++ (rm.filter (fun p => !(p.2.contains "OPTIONS"))).map
       (fun p => (H p.1 ++ "ResourceOPTIONS", corsNode H p.1))
  ++ ms.map (fun m =>
       (m.hash ++ "Stack",
        .stack ("https://" ++ b.aws_bucket ++ ".s3.amazonaws.com/API/" ++ m.json)
          (if m.resource.length > 0 then .ref (H m.resource ++ "Resource")
           else .rootResourceId)))

/-- The DependsOn lists of the deployment nodes of a template (the built
template has exactly one). -/
def deploymentDeps (t : List (String × TRes)) : List (List String) :=
  t.filterMap (fun p => match p.2 with | .deployment d => some d | _ => none)

/-- True for a synthesized CORS OPTIONS node. -/
def isCorsNode : TRes → Bool
  | .corsOptions _ _ _ => true
  | _ => false

/-- The synthesized CORS OPTIONS entries a template holds under the logical
id derived from the resource path r. -/
def corsNodesFor (H : String → String) (t : List (String × TRes)) (r : String) :
    List (String × TRes) :=
  t.filter (fun p => isCorsNode p.2 && p.1 == H r ++ "ResourceOPTIONS")

/-- First-match verb list of a resource in a resources_methods list. -/
def getVerbs (l : List (String × List String)) (r : String) : List String :=
  ((l.find? (fun p => p.1 == r)).map (fun p => p.2)).getD []

/-- Key membership in a resources_methods list. -/
def hasKey (l : List (String × List String)) (r : String) : Bool :=
  l.any (fun p => p.1 == r)

/-- The logical ids of the AWS::ApiGateway::Resource nodes of a template, in
insertion order. -/
def resourceIds (t : List (String × TRes)) : List String :=
  t.filterMap (fun p => match p.2 with | TRes.resource _ _ => some p.1 | _ => none)

/-! ### Well-formedness of names and trees

Directory names on a real filesystem never contain a slash and are never
empty; these predicates let theorems quantify over exactly the trees a
directory scan can produce. -/

/-- No slash occurs in the string. -/
def slashFree (s : String) : Bool := s.data.all (fun c => c ≠ '/')

/-- Every entry name in the tree is a nonempty slash free string. -/
def wfTree : FileTree → Bool
  | .file => true
  | .dirNil => true
  | .dirCons k v rest => (k != "") && slashFree k && wfTree v && wfTree rest

/-! ### Concrete sample inputs for witnesses and counterexamples -/

/-- A builder state as __init__ stores it for the configuration used in the
concrete instances below (built is False until build() completes). -/
def builderEx : Builder :=
  { path := "proj", path_sources := "proj/API", path_temporal := ".API"
  , path_documentation := "docs", name := "myapi", deployer := "dep"
  , provider := "aws", version := "1", description := "desc", title := "t"
  , timestamp := 5, aws_profile := "prof", aws_region := "reg"
  , aws_bucket := "buck", aws_stage := "stg", aws_stack := "stk"
  , aws_stack_file := "dep/stk", built := false, deployed := false }

/-- The structure tree of the spec example: API/users/GET and
API/users/{id}/DELETE. -/
def treeEx : FileTree :=
  .dirCons "users"
    (.dirCons "GET" .dirNil
      (.dirCons "{id}" (.dirCons "DELETE" .dirNil .dirNil) .dirNil))
    .dirNil

/-- A file tree with a non verb leaf directory GETX (its only entry is a
file, stripped before validation). -/
def treeBadEx : FileTree :=
  .dirCons "users"
    (.dirCons "GETX" (.dirCons "index.mjs" .file .dirNil) .dirNil)
    .dirNil

/-- A one endpoint method list (GET on resource users). -/
def msEx : List MethodRec :=
  [{ hash := "h1", method := "GET", zip := "7-h1.zip", json := "7-h1.json"
   , path_sources := "proj/API/users/GET", resource := "users"
   , path_temporal := ".API/h1" }]

/-- A configuration with every required field a valid non empty string and
the optional keys version, description and title entirely absent. -/
def configEx : List (String × String) :=
  [("path", "proj"), ("name", "myapi"), ("deployer", "dep"), ("provider", "aws"),
   ("aws_profile", "prof"), ("aws_region", "reg"), ("aws_bucket", "buck"),
   ("aws_stage", "stg"), ("aws_stack", "stk")]

/-! ## Lemmas about the string primitives -/

theorem string_ext (a b : String) (h : a.data = b.data) : a = b := by
  cases a with
  | mk d1 =>
    cases b with
    | mk d2 => exact congrArg String.mk h

theorem mk_data (s : String) : String.mk s.data = s := rfl

theorem data_eq_nil_iff (s : String) : s.data = [] ↔ s = "" := by
  cases s with
  | mk d =>
    constructor
    · intro h
      have hd : d = [] := h
      subst hd
      rfl
    · intro h
      rw [h]

theorem splitChAux_ne_nil (sep : Char) (l : List Char) : splitChAux sep l ≠ [] := by
  induction l with
  | nil => simp [splitChAux]
  | cons c cs ih =>
    simp only [splitChAux]
    cases h : splitChAux sep cs with
    | nil => exact absurd h ih
    | cons a t => by_cases hc : c = sep <;> simp [hc]

theorem splitChAux_append (sep : Char) (xs ys : List Char) :
    splitChAux sep (xs ++ sep :: ys) = splitChAux sep xs ++ splitChAux sep ys := by
  induction xs with
  | nil =>
    simp only [List.nil_append, splitChAux]
    cases h : splitChAux sep ys with
    | nil => exact absurd h (splitChAux_ne_nil sep ys)
    | cons a t => simp
  | cons c cs ih =>
    simp only [List.cons_append, splitChAux]
    cases h : splitChAux sep cs with
    | nil => exact absurd h (splitChAux_ne_nil sep cs)
    | cons a t =>
      cases h2 : splitChAux sep ys with
      | nil => exact absurd h2 (splitChAux_ne_nil sep ys)
      | cons b t2 =>
        simp only [List.append_eq]
        rw [ih, h, h2]
        by_cases hc : c = sep <;> simp [hc]

theorem splitChAux_of_all_ne (sep : Char) (xs : List Char) (h : ∀ c ∈ xs, c ≠ sep) :
    splitChAux sep xs = [xs] := by
  induction xs with
  | nil => rfl
  | cons c cs ih =>
    have hc : c ≠ sep := h c (by simp)
    have ihh := ih (fun d hd => h d (by simp [hd]))
    simp [splitChAux, ihh, hc]

theorem slashFree_all (k : String) (hk : slashFree k = true) : ∀ c ∈ k.data, c ≠ '/' := by
  intro c hc
  have := (List.all_eq_true.mp hk) c hc
  simpa using this

theorem pySplit_of_slashFree (k : String) (hk : slashFree k = true) : pySplit k = [k] := by
  unfold pySplit pySplitCh
  rw [splitChAux_of_all_ne '/' k.data (slashFree_all k hk)]
  rfl

theorem pySplit_append_slashFree (p k : String) (hk : slashFree k = true) :
    pySplit (p ++ "/" ++ k) = pySplit p ++ [k] := by
  have hdata : (p ++ "/" ++ k).data = p.data ++ '/' :: k.data := by
    simp [String.data_append]
  unfold pySplit pySplitCh
  rw [hdata, splitChAux_append, splitChAux_of_all_ne '/' k.data (slashFree_all k hk)]
  simp [mk_data]

theorem pyStartsWith_slash_eq_false (k : String) (hk : slashFree k = true) :
    pyStartsWith k "/" = false := by
  unfold pyStartsWith
  cases hd : k.data with
  | nil => rfl
  | cons c cs =>
    have hc : c ≠ '/' := slashFree_all k hk c (by rw [hd]; simp)
    simp [List.isPrefixOf]
    intro h
    exact absurd h.symm hc

theorem pyEndsWith_slash_iff (p : String) :
    pyEndsWith p "/" = true ↔ p.data.getLast? = some '/' := by
  unfold pyEndsWith
  rw [← List.head?_reverse]
  have hdr : ("/" : String).data.reverse = ['/'] := rfl
  rw [hdr]
  cases hr : p.data.reverse with
  | nil =>
    have h1 : (['/'] : List Char).isPrefixOf [] = false := by decide
    rw [h1]
    simp
  | cons c cs =>
    rw [List.isPrefixOf_cons₂, List.isPrefixOf_nil_left]
    constructor
    · intro h
      simp at h
      simp [h.symm]
    · intro h
      simp at h
      simp [h]

theorem pjoin_eq_append (p k : String) (hp : p ≠ "") (hlast : p.data.getLast? ≠ some '/')
    (hk : slashFree k = true) : pjoin p k = p ++ "/" ++ k := by
  unfold pjoin
  rw [pyStartsWith_slash_eq_false k hk]
  have h2 : pyEndsWith p "/" = false := by
    cases h : pyEndsWith p "/"
    · rfl
    · exact absurd ((pyEndsWith_slash_iff p).mp h) hlast
  simp [hp, h2]

theorem getLast?_string_append (a s : String) (h : s.data ≠ []) :
    (a ++ s).data.getLast? = s.data.getLast? := by
  rw [String.data_append]
  exact List.getLast?_append_of_ne_nil a.data h

theorem slashFree_getLast (k : String) (hne : k ≠ "") (hk : slashFree k = true) :
    ∃ c, k.data.getLast? = some c ∧ c ≠ '/' := by
  have hd : k.data ≠ [] := fun h => hne ((data_eq_nil_iff k).mp h)
  refine ⟨k.data.getLast hd, List.getLast?_eq_getLast k.data hd, ?_⟩
  exact slashFree_all k hk _ (List.getLast_mem hd)

theorem joinSlash_concat (l : List String) (x : String) (h : l ≠ []) :
    joinSlash (l ++ [x]) = joinSlash l ++ "/" ++ x := by
  induction l with
  | nil => exact absurd rfl h
  | cons y l ih =>
    cases l with
    | nil => rfl
    | cons z l2 =>
      have ih2 := ih (by simp)
      show y ++ "/" ++ joinSlash ((z :: l2) ++ [x]) = (y ++ "/" ++ joinSlash (z :: l2)) ++ "/" ++ x
      rw [ih2]
      simp [String.append_assoc]

theorem joinSlash_splitChAux (cs : List Char) :
    joinSlash ((splitChAux '/' cs).map String.mk) = String.mk cs := by
  induction cs with
  | nil => rfl
  | cons c cs ih =>
    cases h : splitChAux '/' cs with
    | nil => exact absurd h (splitChAux_ne_nil '/' cs)
    | cons a t =>
      rw [h] at ih
      by_cases hc : c = '/'
      · subst hc
        simp only [splitChAux, h, if_pos rfl, List.map_cons]
        show String.mk [] ++ "/" ++ joinSlash (String.mk a :: t.map String.mk) = String.mk ('/' :: cs)
        apply string_ext
        have hdata := congrArg String.data ih
        simp only [List.map_cons] at hdata
        simp [String.data_append, hdata]
      · simp only [splitChAux, h, if_neg hc, List.map_cons]
        cases t with
        | nil =>
          simp only [List.map_nil]
          show String.mk (c :: a) = String.mk (c :: cs)
          have ha : String.mk a = String.mk cs := by simpa [joinSlash] using ih
          have : a = cs := by injection ha
          rw [this]
        | cons b t2 =>
          show String.mk (c :: a) ++ "/" ++ joinSlash ((b :: t2).map String.mk) = String.mk (c :: cs)
          apply string_ext
          have hdata := congrArg String.data ih
          simp only [List.map_cons] at hdata
          simp only [String.data_append] at hdata ⊢
          simp only [joinSlash] at hdata
          rw [← hdata]
          simp [String.data_append]

theorem joinSlash_pySplit (s : String) : joinSlash (pySplit s) = s := by
  have h := joinSlash_splitChAux s.data
  simpa [pySplit, pySplitCh] using h

theorem string_length_append (a b : String) : (a ++ b).length = a.length + b.length := by
  show (a ++ b).data.length = a.data.length + b.data.length
  rw [String.data_append, List.length_append]

theorem parent_path_length_lt (r : String) (h : r ≠ "") :
    (parent_path r).length < r.length := by
  unfold parent_path
  rcases List.eq_nil_or_concat (pySplit r) with hnil | ⟨l2, x, hx⟩
  · exact absurd hnil (by
      unfold pySplit pySplitCh
      intro hcon
      exact splitChAux_ne_nil '/' r.data (by simpa using hcon))
  · rw [List.concat_eq_append] at hx
    rw [hx, List.dropLast_concat]
    have hjoin : joinSlash (l2 ++ [x]) = r := by
      rw [← hx]
      exact joinSlash_pySplit r
    have hrlen : 0 < r.length := by
      have hd : r.data ≠ [] := fun hh => h ((data_eq_nil_iff r).mp hh)
      show 0 < r.data.length
      exact List.length_pos.mpr hd
    cases l2 with
    | nil =>
      show ("" : String).length < r.length
      simpa using hrlen
    | cons y l3 =>
      have hconcat := joinSlash_concat (y :: l3) x (by simp)
      rw [hconcat] at hjoin
      have := congrArg String.length hjoin
      rw [string_length_append, string_length_append] at this
      have hslash : ("/" : String).length = 1 := rfl
      omega

theorem climb_fuel_enough : ∀ (n m : Nat) (acc : List String) (r : String),
    r.length < n → r.length < m → climb n acc r = climb m acc r := by
  intro n
  induction n with
  | zero => intro m acc r h _; omega
  | succ n ih =>
    intro m acc r h hm
    cases m with
    | zero => omega
    | succ m =>
      simp only [climb]
      by_cases hr : r = ""
      · simp [hr]
      · have hbeq : (r == "") = false := by simpa using hr
        rw [hbeq]
        simp only [Bool.false_eq_true, if_false]
        have hlt := parent_path_length_lt r hr
        exact ih m _ (parent_path r) (by omega) (by omega)

/-! ## Claim theorems -/

/-- C8 (code_bug): the claim says constructing a builder from a configuration
whose required fields are all valid non empty strings but whose optional keys
version, description and title are entirely absent succeeds.  The code
guards each optional key with config.get(key), which tolerates absence, but
then stores config[key] unconditionally, so __init__ raises KeyError:
version on exactly such a configuration.  The filesystem stubs make the path
checks pass, so the failure is precisely the optional key store. -/
theorem c8_missing_optional_keys_raise :
    builder_init id (fun _ => true) (fun _ => ["API"]) 0 configEx
      = Except.error "KeyError: version" := by decide

/-- C9 (confirmed): deploy on any builder state whose built flag is not set
raises ValueError with the message the code uses, before the provider
dispatch and hence before any deployment action.  __init__ initializes
built := False and only the last statement of a successful build() sets it,
so this covers every builder on which build() has not completed. -/
theorem c9_deploy_requires_built (b : Builder) (h : b.built = false) :
    deploy b = Except.error "API must be built before deploying" := by
  simp [deploy, h]

theorem c9_deploy_requires_built_witness :
    deploy builderEx = Except.error "API must be built before deploying" :=
  c9_deploy_requires_built builderEx rfl

/-- C1 counterexample: on a one endpoint build (GET on resource users, digest
abstracted to a concrete stand-in), the synthesized CORS OPTIONS node
usersResourceOPTIONS is in the template but the deployment node DependsOn
list is exactly ["apiGateway", "h1Stack"], which does not contain it: the
dependency set does not contain the identity of every synthesized CORS
OPTIONS node, contrary to the claim. -/
theorem c1_counterexample :
    ("usersResourceOPTIONS", corsNode id "users") ∈ aws_build_apigateway id builderEx msEx
      ∧ deploymentDeps (aws_build_apigateway id builderEx msEx) = [["apiGateway", "h1Stack"]]
      ∧ "usersResourceOPTIONS" ∉ ["apiGateway", "h1Stack"] := by decide

/-- C2 counterexample: relocating the source root from srcA to srcB, with the
deployer, the resource paths and the verbs unchanged, changes every method
identity, because the hash input is deployer-<filesystem path>/<verb> and the
filesystem path embeds the root.  The digest is abstracted as a parameter
(spec 4.3: a deterministic digest); with any digest that separates the two
distinct inputs (here the identity stand-in; the MD5 of the code separates
them too unless it collides, which the spec rules out) the identities differ,
refuting the claimed invariance under relocating the root. -/
theorem c2_counterexample :
    ((get_methods_top id "dep" "srcA" "tmp" (fun _ => 7) treeEx).map (fun m => m.resource)
        = (get_methods_top id "dep" "srcB" "tmp" (fun _ => 7) treeEx).map (fun m => m.resource))
      ∧ (get_methods_top id "dep" "srcA" "tmp" (fun _ => 7) treeEx).map (fun m => m.hash)
          ≠ (get_methods_top id "dep" "srcB" "tmp" (fun _ => 7) treeEx).map (fun m => m.hash) := by
  decide

/-- C3 counterexample: with the configured source root home/user (two path
segments), the code computes the resource path API/users for the first
endpoint (components [2:-1] of the full path, which here still include the
API folder) instead of the spec stated segments between the API root and the
verb, namely users, so the claimed equality fails for roots of depth other
than one. -/
theorem c3_counterexample :
    (get_methods_top id "dep" "home/user" "tmp" (fun _ => 7) treeEx).map (fun m => m.resource)
        = ["API/users", "API/users/{id}"]
      ∧ methodResourcesSpec treeEx [] = ["users", "users/{id}"] := by decide

/-- C4 counterexample: a file that opens an IF block and never closes it is
accepted silently: the loop of _clean_mjs ends with a non empty rule stack
and no check follows it, so no unbalanced directive error is raised at end of
file, contrary to the second half of the claim. -/
theorem c4_counterexample :
    clean_mjs [("stage", "dev")] ["//// IF stage prod", "x"] = Except.ok [] := by decide

/-- C10 counterexample: an IF directive naming the absent key missing is
entered inside an enclosing IF whose condition is false (a is 0, not 1); the
content line inside both blocks is evaluated while the absent key condition
is on the stack, yet preprocessing completes without a KeyError (the write
loop breaks at the first false condition before reading the absent key), so
the claimed raise does not happen and totality does not require every
referenced key to exist. -/
theorem c10_counterexample :
    lookup [("a", "0")] "missing" = none
      ∧ clean_mjs [("a", "0")]
          ["//// IF a 1", "//// IF missing x", "content", "//// ENDIF", "//// ENDIF"]
          = Except.ok [] := by decide

/-! ## Topology validation (C6) -/

theorem except_bind_isOk (e1 e2 : Except String Unit) :
    (do _ ← e1; e2).isOk = (e1.isOk && e2.isOk) := by
  cases e1 <;> rfl

theorem remove_null_keys_clean (t : FileTree) (ht : dictTree t = true) :
    cleanTree (remove_null_keys t) = true := by
  induction t with
  | file => simp [dictTree] at ht
  | dirNil => rfl
  | dirCons k v rest ihv ihr =>
    simp only [dictTree, Bool.and_eq_true, Bool.or_eq_true] at ht
    obtain ⟨hv, hrest⟩ := ht
    cases v with
    | file => simpa [remove_null_keys] using ihr hrest
    | dirNil => simp [remove_null_keys, cleanTree, ihr hrest]
    | dirCons a b c =>
      have hv2 : dictTree (FileTree.dirCons a b c) = true := by
        rcases hv with h | h
        · simp at h
        · exact h
      simp [remove_null_keys, cleanTree, ihv hv2, ihr hrest]

theorem check_ok_iff_leaves (s : FileTree) (hs : cleanTree s = true) :
    (check_http_methods s).isOk
      = (leafNames s).all (fun k => http_methods.contains k) := by
  induction s with
  | file => rfl
  | dirNil => rfl
  | dirCons k v rest ihv ihr =>
    simp only [cleanTree, Bool.and_eq_true] at hs
    obtain ⟨hv, hrest⟩ := hs
    cases v with
    | file => simp [cleanTree] at hv
    | dirNil =>
      by_cases hk : k ∈ http_methods
      · simp [check_http_methods, pyFalsy, leafNames, hk, ihr hrest]
      · simp [check_http_methods, pyFalsy, leafNames, hk, Except.isOk, Except.toBool]
    | dirCons a b c =>
      have hstep :
          check_http_methods (FileTree.dirCons k (FileTree.dirCons a b c) rest)
            = (do _ ← check_http_methods (FileTree.dirCons a b c)
                  check_http_methods rest) := rfl
      rw [hstep, except_bind_isOk, ihv hv, ihr hrest]
      have hleaf :
          leafNames (FileTree.dirCons k (FileTree.dirCons a b c) rest)
            = leafNames (FileTree.dirCons a b c) ++ leafNames rest := by
        simp [leafNames]
      rw [hleaf, List.all_append]

/-- C6 (confirmed): for every directory scan tree, topology validation fails
(get_structure returns an error, the ValueError of the code, named
InvalidTopologyError by the spec) exactly when, after the files are stripped,
some leaf directory (an entry with no subdirectories) has a name outside the
recognized verb set: the isOk flag of the result equals the all-leaves-valid
check over the stripped tree. -/
theorem c6_topology_validation (t : FileTree) (ht : dictTree t = true) :
    (get_structure t).isOk
      = (leafNames (remove_null_keys t)).all (fun k => http_methods.contains k) := by
  unfold get_structure
  have h1 : ((check_http_methods (remove_null_keys t)).map
        (fun _ => remove_null_keys t)).isOk
      = (check_http_methods (remove_null_keys t)).isOk := by
    cases check_http_methods (remove_null_keys t) <;> rfl
  rw [h1]
  exact check_ok_iff_leaves _ (remove_null_keys_clean t ht)

theorem c6_topology_validation_witness :
    dictTree treeBadEx = true
      ∧ (get_structure treeBadEx).isOk
          = (leafNames (remove_null_keys treeBadEx)).all (fun k => http_methods.contains k) :=
  ⟨by decide, c6_topology_validation treeBadEx (by decide)⟩

/-! ## Preprocessor lemmas (C7, C4, C10) -/

theorem except_ok_bind {α β : Type} (a : α) (f : α → Except String β) :
    (Except.ok a >>= f) = f a := rfl

theorem except_error_bind {α β : Type} (e : String) (f : α → Except String β) :
    ((Except.error e : Except String α) >>= f) = Except.error e := rfl

theorem clean_step_if (config : List (String × String)) (st : CleanState) (l : String)
    (h : pyStartsWith (pyStrip l) "//// IF" = true) :
    clean_step config st l
      = match (pySplitCh ' ' (pyStrip l))[2]?, (pySplitCh ' ' (pyStrip l))[3]? with
        | some k, some v =>
          if st.rules.contains (k, "==", v) then Except.error "Rule is already in use"
          else Except.ok { st with rules := st.rules ++ [(k, "==", v)] }
        | _, _ => Except.error "IndexError: list index out of range" := by
  simp only [clean_step]
  rw [h]
  simp

theorem clean_step_endif (config : List (String × String)) (st : CleanState) (l : String)
    (h1 : pyStartsWith (pyStrip l) "//// IF" = false)
    (h2 : pyStartsWith (pyStrip l) "//// ENDIF" = true) :
    clean_step config st l
      = (if st.rules = [] then Except.error "No rule to close"
         else Except.ok { st with rules := st.rules.dropLast }) := by
  simp only [clean_step]
  rw [h1, h2]
  simp

theorem clean_step_content (config : List (String × String)) (st : CleanState) (l : String)
    (h1 : pyStartsWith (pyStrip l) "//// IF" = false)
    (h2 : pyStartsWith (pyStrip l) "//// ENDIF" = false) :
    clean_step config st l
      = (match eval_rules config st.rules with
         | Except.error e => Except.error e
         | Except.ok true => Except.ok { st with out := st.out ++ [l] }
         | Except.ok false => Except.ok st) := by
  simp only [clean_step]
  rw [h1, h2]
  simp

theorem eval_rules_eq_allHold (config : List (String × String)) (rules : List Rule)
    (h : ∀ r ∈ rules, r.2.1 = "==" ∧ (lookup config r.1).isSome) :
    eval_rules config rules = Except.ok (allHold config rules) := by
  induction rules with
  | nil => rfl
  | cons r rest ih =>
    obtain ⟨k, op, v⟩ := r
    obtain ⟨hop, hsome⟩ := h (k, op, v) (by simp)
    simp only at hop
    subst hop
    cases hlk : lookup config k with
    | none => rw [hlk] at hsome; simp at hsome
    | some val =>
      have hrest := ih (fun r hr => h r (by simp [hr]))
      by_cases hv : val = v
      · have hcons : allHold config ((k, "==", v) :: rest) = allHold config rest := by
          simp [allHold, hlk, List.all_cons, hv]
        have hbeq : (val == v) = true := by simpa using hv
        simp only [eval_rules, beq_self_eq_true, if_true, hlk, hbeq]
        rw [hcons]
        exact hrest
      · have hbeq : (val == v) = false := by simpa using hv
        have hall : allHold config ((k, "==", v) :: rest) = false := by
          simp [allHold, hlk, List.all_cons, hv]
        simp only [eval_rules, beq_self_eq_true, if_true, hlk, hbeq, Bool.false_eq_true,
          if_false]
        rw [hall]

theorem clean_fold_spec (config : List (String × String)) :
    ∀ (lines : List String) (st fin : CleanState),
      (∀ l ∈ lines, isIFLine l = true → (lookup config (lineRule l).1).isSome) →
      (∀ r ∈ st.rules, r.2.1 = "==" ∧ (lookup config r.1).isSome) →
      lines.foldlM (clean_step config) st = Except.ok fin →
      fin.out = st.out ++ stack_filter config st.rules lines := by
  intro lines
  induction lines with
  | nil =>
    intro st fin _ _ hok
    have heq : st = fin := Except.ok.inj hok
    subst heq
    simp [stack_filter]
  | cons l rest ih =>
    intro st fin hkeys hinv hok
    rw [List.foldlM_cons] at hok
    by_cases hIF : isIFLine l = true
    · have hIF2 : pyStartsWith (pyStrip l) "//// IF" = true := hIF
      cases h2 : (pySplitCh ' ' (pyStrip l))[2]? with
      | none =>
        have hstep : clean_step config st l
            = Except.error "IndexError: list index out of range" := by
          rw [clean_step_if config st l hIF2, h2]
        rw [hstep, except_error_bind] at hok
        simp at hok
      | some k =>
        cases h3 : (pySplitCh ' ' (pyStrip l))[3]? with
        | none =>
          have hstep : clean_step config st l
              = Except.error "IndexError: list index out of range" := by
            rw [clean_step_if config st l hIF2, h2, h3]
          rw [hstep, except_error_bind] at hok
          simp at hok
        | some v =>
          have hstep : clean_step config st l
              = (if st.rules.contains (k, "==", v) then Except.error "Rule is already in use"
                 else Except.ok { st with rules := st.rules ++ [(k, "==", v)] }) := by
            rw [clean_step_if config st l hIF2, h2, h3]
          rw [hstep] at hok
          by_cases hdup : st.rules.contains (k, "==", v)
          · rw [if_pos hdup] at hok
            rw [except_error_bind] at hok
            simp at hok
          · rw [if_neg hdup] at hok
            rw [except_ok_bind] at hok
            have hrule : lineRule l = (k, "==", v) := by
              unfold lineRule
              rw [h2, h3]
              rfl
            have hinv2 : ∀ r ∈ st.rules ++ [(k, "==", v)],
                r.2.1 = "==" ∧ (lookup config r.1).isSome := by
              intro r hr
              rcases List.mem_append.mp hr with hr1 | hr2
              · exact hinv r hr1
              · have heq : r = (k, "==", v) := by simpa using hr2
                subst heq
                refine ⟨rfl, ?_⟩
                have hks := hkeys l (by simp) hIF
                rw [hrule] at hks
                exact hks
            have hres := ih { st with rules := st.rules ++ [(k, "==", v)] } fin
              (fun l2 hl2 hl3 => hkeys l2 (by simp [hl2]) hl3) hinv2 hok
            rw [hres]
            have hsf : stack_filter config st.rules (l :: rest)
                = stack_filter config (st.rules ++ [lineRule l]) rest := by
              simp only [stack_filter]
              rw [hIF]
              simp
            rw [hsf, hrule]
    · have hIF2 : pyStartsWith (pyStrip l) "//// IF" = false := by
        simpa [isIFLine] using hIF
      by_cases hEND : pyStartsWith (pyStrip l) "//// ENDIF" = true
      · have hENDline : isENDIFLine l = true := by
          simp [isENDIFLine, isIFLine, hIF2, hEND]
        rw [clean_step_endif config st l hIF2 hEND] at hok
        by_cases hnil : st.rules = []
        · rw [if_pos hnil] at hok
          rw [except_error_bind] at hok
          simp at hok
        · rw [if_neg hnil] at hok
          rw [except_ok_bind] at hok
          have hinv2 : ∀ r ∈ st.rules.dropLast, r.2.1 = "==" ∧ (lookup config r.1).isSome :=
            fun r hr => hinv r ((List.dropLast_prefix st.rules).subset hr)
          have hres := ih { st with rules := st.rules.dropLast } fin
            (fun l2 hl2 hl3 => hkeys l2 (by simp [hl2]) hl3) hinv2 hok
          rw [hres]
          have hsf : stack_filter config st.rules (l :: rest)
              = stack_filter config st.rules.dropLast rest := by
            simp only [stack_filter]
            rw [show isIFLine l = false from by simpa [isIFLine] using hIF, hENDline]
            simp
          rw [hsf]
      · have hEND2 : pyStartsWith (pyStrip l) "//// ENDIF" = false := by
          simpa using hEND
        have hENDline : isENDIFLine l = false := by
          simp [isENDIFLine, hEND2]
        rw [clean_step_content config st l hIF2 hEND2] at hok
        rw [eval_rules_eq_allHold config st.rules hinv] at hok
        have hsf : stack_filter config st.rules (l :: rest)
            = (if allHold config st.rules then [l] else [])
                ++ stack_filter config st.rules rest := by
          simp only [stack_filter]
          rw [show isIFLine l = false from by simpa [isIFLine] using hIF, hENDline]
          simp
        cases hall : allHold config st.rules with
        | true =>
          rw [hall] at hok
          rw [show (match (Except.ok true : Except String Bool) with
              | Except.error e => (Except.error e : Except String CleanState)
              | Except.ok true => Except.ok { st with out := st.out ++ [l] }
              | Except.ok false => Except.ok st)
              = Except.ok { st with out := st.out ++ [l] } from rfl] at hok
          rw [except_ok_bind] at hok
          have hres := ih { st with out := st.out ++ [l] } fin
            (fun l2 hl2 hl3 => hkeys l2 (by simp [hl2]) hl3) hinv hok
          rw [hres, hsf, hall]
          simp
        | false =>
          rw [hall] at hok
          rw [show (match (Except.ok false : Except String Bool) with
              | Except.error e => (Except.error e : Except String CleanState)
              | Except.ok true => Except.ok { st with out := st.out ++ [l] }
              | Except.ok false => Except.ok st)
              = Except.ok st from rfl] at hok
          rw [except_ok_bind] at hok
          have hres := ih st fin (fun l2 hl2 hl3 => hkeys l2 (by simp [hl2]) hl3) hinv hok
          rw [hres, hsf, hall]
          simp

/-- C7 (confirmed): whenever preprocessing succeeds and every key named by an
IF directive of the file is present in the configuration, the output is
exactly the stack filter of the file: a content line is retained if and only
if every condition on the directive stack enclosing it holds (equality of the
configured value with the expected value, all conditions conjoined; one false
condition suppresses every nested line), and directive lines never appear. -/
theorem c7_conditional_retention (config : List (String × String)) (lines out : List String)
    (hkeys : ∀ l ∈ lines, isIFLine l = true → (lookup config (lineRule l).1).isSome)
    (hok : clean_mjs config lines = Except.ok out) :
    out = stack_filter config [] lines := by
  unfold clean_mjs at hok
  cases hfold : lines.foldlM (clean_step config) ⟨[], []⟩ with
  | error e => rw [hfold] at hok; simp at hok
  | ok fin =>
    rw [hfold] at hok
    rw [except_ok_bind] at hok
    have hout : fin.out = out := Except.ok.inj hok
    have hres := clean_fold_spec config lines ⟨[], []⟩ fin hkeys (by simp) hfold
    rw [← hout, hres]
    rfl

theorem c7_conditional_retention_witness :
    clean_mjs [("stage", "prod")] ["a", "//// IF stage prod", "b", "//// ENDIF", "c"]
        = Except.ok ["a", "b", "c"]
      ∧ ["a", "b", "c"]
          = stack_filter [("stage", "prod")] []
              ["a", "//// IF stage prod", "b", "//// ENDIF", "c"] :=
  ⟨by decide,
   c7_conditional_retention [("stage", "prod")]
     ["a", "//// IF stage prod", "b", "//// ENDIF", "c"] ["a", "b", "c"]
     (by decide) (by decide)⟩

theorem except_ok_ne_error {α : Type} (a : α) (e : String) :
    (Except.ok a : Except String α) ≠ Except.error e := fun h => Except.noConfusion h

theorem clean_mjs_error_iff (config : List (String × String)) (lines : List String)
    (e : String) :
    clean_mjs config lines = Except.error e
      ↔ lines.foldlM (clean_step config) ⟨[], []⟩ = Except.error e := by
  unfold clean_mjs
  cases h : lines.foldlM (clean_step config) ⟨[], []⟩ with
  | error e2 => simp
  | ok fin =>
    rw [except_ok_bind]
    constructor
    · intro hcon
      exact absurd hcon (except_ok_ne_error fin.out e)
    · intro hcon
      exact absurd hcon (except_ok_ne_error fin e)

theorem clean_fold_unbalanced (config : List (String × String)) :
    ∀ (lines : List String) (st : CleanState),
      (∀ l ∈ lines, isIFLine l = true →
        ((pySplitCh ' ' (pyStrip l))[2]?).isSome ∧ ((pySplitCh ' ' (pyStrip l))[3]?).isSome ∧
        (lookup config (lineRule l).1).isSome) →
      (∀ r ∈ st.rules, r.2.1 = "==" ∧ (lookup config r.1).isSome) →
      ((lines.filter isIFLine).map lineRule).Nodup →
      (∀ r ∈ st.rules, r ∉ (lines.filter isIFLine).map lineRule) →
      ((lines.foldlM (clean_step config) st = Except.error "No rule to close")
        ↔ unmatchedEndif st.rules.length lines = true) := by
  intro lines
  induction lines with
  | nil =>
    intro st _ _ _ _
    simp only [List.foldlM, unmatchedEndif]
    constructor
    · intro h
      exact absurd h (except_ok_ne_error st "No rule to close")
    · intro h
      simp at h
  | cons l rest ih =>
    intro st hwf hinv hnodup hdisj
    rw [List.foldlM_cons]
    by_cases hIF : isIFLine l = true
    · have hIF2 : pyStartsWith (pyStrip l) "//// IF" = true := hIF
      obtain ⟨hs2, hs3, hsk⟩ := hwf l (by simp) hIF
      obtain ⟨k, h2⟩ := Option.isSome_iff_exists.mp hs2
      obtain ⟨v, h3⟩ := Option.isSome_iff_exists.mp hs3
      have hrule : lineRule l = (k, "==", v) := by
        unfold lineRule
        rw [h2, h3]
        rfl
      have hfcons : (l :: rest).filter isIFLine = l :: rest.filter isIFLine :=
        List.filter_cons_of_pos hIF
      have hmapcons : ((l :: rest).filter isIFLine).map lineRule
          = lineRule l :: (rest.filter isIFLine).map lineRule := by
        rw [hfcons, List.map_cons]
      have hnotin : (k, "==", v) ∉ st.rules := by
        intro hmem
        have := hdisj (k, "==", v) hmem
        rw [hmapcons, hrule] at this
        exact this (by simp)
      have hcontains : st.rules.contains (k, "==", v) = false := by
        rw [List.contains_eq_any_beq]
        rw [List.any_eq_false]
        intro r hr
        simp only [beq_iff_eq]
        intro heq
        exact hnotin (heq ▸ hr)
      have hstep : clean_step config st l
          = Except.ok { st with rules := st.rules ++ [(k, "==", v)] } := by
        rw [clean_step_if config st l hIF2, h2, h3]
        simp [hnotin]
      rw [hstep, except_ok_bind]
      have hnodup2 : ((rest.filter isIFLine).map lineRule).Nodup := by
        rw [hmapcons] at hnodup
        exact hnodup.of_cons
      have hdisj2 : ∀ r ∈ st.rules ++ [(k, "==", v)],
          r ∉ (rest.filter isIFLine).map lineRule := by
        intro r hr
        rcases List.mem_append.mp hr with hr1 | hr2
        · intro hcon
          have := hdisj r hr1
          rw [hmapcons] at this
          exact this (by simp [hcon])
        · have heq : r = (k, "==", v) := by simpa using hr2
          subst heq
          rw [hmapcons] at hnodup
          have := List.nodup_cons.mp hnodup
          rw [hrule] at this
          exact this.1
      have hinv2 : ∀ r ∈ st.rules ++ [(k, "==", v)],
          r.2.1 = "==" ∧ (lookup config r.1).isSome := by
        intro r hr
        rcases List.mem_append.mp hr with hr1 | hr2
        · exact hinv r hr1
        · have heq : r = (k, "==", v) := by simpa using hr2
          subst heq
          refine ⟨rfl, ?_⟩
          rw [hrule] at hsk
          exact hsk
      have hres := ih { st with rules := st.rules ++ [(k, "==", v)] }
        (fun l2 hl2 hl3 => hwf l2 (by simp [hl2]) hl3) hinv2 hnodup2 hdisj2
      rw [hres]
      have hun : unmatchedEndif st.rules.length (l :: rest)
          = unmatchedEndif (st.rules.length + 1) rest := by
        simp only [unmatchedEndif]
        rw [hIF]
        simp
      rw [hun]
      have hlen : (st.rules ++ [(k, "==", v)]).length = st.rules.length + 1 := by
        simp
      rw [hlen]
    · have hIFf : isIFLine l = false := by simpa using hIF
      have hIF2 : pyStartsWith (pyStrip l) "//// IF" = false := by
        simpa [isIFLine] using hIF
      have hfcons : (l :: rest).filter isIFLine = rest.filter isIFLine :=
        List.filter_cons_of_neg (by simp [hIFf])
      by_cases hEND : pyStartsWith (pyStrip l) "//// ENDIF" = true
      · have hENDline : isENDIFLine l = true := by
          simp [isENDIFLine, isIFLine, hIF2, hEND]
        rw [clean_step_endif config st l hIF2 hEND]
        by_cases hnil : st.rules = []
        · rw [if_pos hnil, except_error_bind]
          have hun : unmatchedEndif st.rules.length (l :: rest) = true := by
            simp only [unmatchedEndif]
            rw [hIFf, hENDline]
            simp [hnil]
          rw [hun]
          simp
        · rw [if_neg hnil, except_ok_bind]
          have hinv2 : ∀ r ∈ st.rules.dropLast, r.2.1 = "==" ∧ (lookup config r.1).isSome :=
            fun r hr => hinv r ((List.dropLast_prefix st.rules).subset hr)
          have hdisj2 : ∀ r ∈ st.rules.dropLast, r ∉ (rest.filter isIFLine).map lineRule := by
            intro r hr
            have := hdisj r ((List.dropLast_prefix st.rules).subset hr)
            rw [hfcons] at this
            exact this
          have hres := ih { st with rules := st.rules.dropLast }
            (fun l2 hl2 hl3 => hwf l2 (by simp [hl2]) hl3) hinv2
            (by rw [hfcons] at hnodup; exact hnodup) hdisj2
          rw [hres]
          have hdpos : 0 < st.rules.length := List.length_pos.mpr hnil
          have hun : unmatchedEndif st.rules.length (l :: rest)
              = unmatchedEndif (st.rules.length - 1) rest := by
            simp only [unmatchedEndif]
            rw [hIFf, hENDline]
            simp [Nat.ne_of_gt hdpos]
          rw [hun, List.length_dropLast]
      · have hEND2 : pyStartsWith (pyStrip l) "//// ENDIF" = false := by
          simpa using hEND
        have hENDline : isENDIFLine l = false := by
          simp [isENDIFLine, hEND2]
        rw [clean_step_content config st l hIF2 hEND2,
          eval_rules_eq_allHold config st.rules hinv]
        have hun : unmatchedEndif st.rules.length (l :: rest)
            = unmatchedEndif st.rules.length rest := by
          simp only [unmatchedEndif]
          rw [hIFf, hENDline]
          simp
        rw [hun]
        have hdisj2 : ∀ r ∈ st.rules, r ∉ (rest.filter isIFLine).map lineRule := by
          intro r hr
          have := hdisj r hr
          rw [hfcons] at this
          exact this
        cases hall : allHold config st.rules with
        | true =>
          rw [show (match (Except.ok true : Except String Bool) with
              | Except.error e => (Except.error e : Except String CleanState)
              | Except.ok true => Except.ok { st with out := st.out ++ [l] }
              | Except.ok false => Except.ok st)
              = Except.ok { st with out := st.out ++ [l] } from rfl]
          rw [except_ok_bind]
          exact ih { st with out := st.out ++ [l] }
            (fun l2 hl2 hl3 => hwf l2 (by simp [hl2]) hl3) hinv
            (by rw [hfcons] at hnodup; exact hnodup) hdisj2
        | false =>
          rw [show (match (Except.ok false : Except String Bool) with
              | Except.error e => (Except.error e : Except String CleanState)
              | Except.ok true => Except.ok { st with out := st.out ++ [l] }
              | Except.ok false => Except.ok st)
              = Except.ok st from rfl]
          rw [except_ok_bind]
          exact ih st (fun l2 hl2 hl3 => hwf l2 (by simp [hl2]) hl3) hinv
            (by rw [hfcons] at hnodup; exact hnodup) hdisj2

/-- C4 (corrected): for every file whose IF directives are well formed (key
and value fields present), pairwise distinct, and name configured keys, the
unbalanced directive error (ValueError: No rule to close) is raised if and
only if some ENDIF line occurs at directive nesting depth zero.  Reaching the
end of the file with a non empty condition stack raises nothing (see the
counterexample): _clean_mjs has no end of file check of its rule stack. -/
theorem c4_unbalanced_characterization (config : List (String × String)) (lines : List String)
    (hwf : ∀ l ∈ lines, isIFLine l = true →
      ((pySplitCh ' ' (pyStrip l))[2]?).isSome ∧ ((pySplitCh ' ' (pyStrip l))[3]?).isSome ∧
      (lookup config (lineRule l).1).isSome)
    (hnodup : ((lines.filter isIFLine).map lineRule).Nodup) :
    (clean_mjs config lines = Except.error "No rule to close")
      ↔ unmatchedEndif 0 lines = true := by
  rw [clean_mjs_error_iff]
  exact clean_fold_unbalanced config lines ⟨[], []⟩ hwf (by simp) hnodup (by simp)

theorem c4_unbalanced_characterization_witness :
    clean_mjs [("stage", "dev")] ["//// ENDIF"] = Except.error "No rule to close" :=
  (c4_unbalanced_characterization [("stage", "dev")] ["//// ENDIF"]
    (by decide) (by decide)).mpr (by decide)

theorem clean_step_rules_ops (config : List (String × String)) (st st2 : CleanState)
    (l : String) (hst : ∀ r ∈ st.rules, r.2.1 = "==")
    (hstep : clean_step config st l = Except.ok st2) :
    ∀ r ∈ st2.rules, r.2.1 = "==" := by
  by_cases hIF : pyStartsWith (pyStrip l) "//// IF" = true
  · cases h2 : (pySplitCh ' ' (pyStrip l))[2]? with
    | none =>
      have hval : clean_step config st l
          = Except.error "IndexError: list index out of range" := by
        rw [clean_step_if config st l hIF, h2]
      rw [hval] at hstep
      exact absurd hstep.symm (except_ok_ne_error st2 "IndexError: list index out of range")
    | some k =>
      cases h3 : (pySplitCh ' ' (pyStrip l))[3]? with
      | none =>
        have hval : clean_step config st l
            = Except.error "IndexError: list index out of range" := by
          rw [clean_step_if config st l hIF, h2, h3]
        rw [hval] at hstep
        exact absurd hstep.symm (except_ok_ne_error st2 "IndexError: list index out of range")
      | some v =>
        have hval : clean_step config st l
            = (if st.rules.contains (k, "==", v) then Except.error "Rule is already in use"
               else Except.ok { st with rules := st.rules ++ [(k, "==", v)] }) := by
          rw [clean_step_if config st l hIF, h2, h3]
        rw [hval] at hstep
        by_cases hdup : st.rules.contains (k, "==", v) = true
        · rw [if_pos hdup] at hstep
          exact absurd hstep.symm (except_ok_ne_error st2 "Rule is already in use")
        · rw [if_neg hdup] at hstep
          have heq : { st with rules := st.rules ++ [(k, "==", v)] } = st2 :=
            Except.ok.inj hstep
          intro r hr
          rw [← heq] at hr
          simp only at hr
          rcases List.mem_append.mp hr with h1 | h1
          · exact hst r h1
          · have hre : r = (k, "==", v) := by simpa using h1
            rw [hre]
  · have hIF2 : pyStartsWith (pyStrip l) "//// IF" = false := by simpa using hIF
    by_cases hEND : pyStartsWith (pyStrip l) "//// ENDIF" = true
    · rw [clean_step_endif config st l hIF2 hEND] at hstep
      by_cases hnil : st.rules = []
      · rw [if_pos hnil] at hstep
        exact absurd hstep.symm (except_ok_ne_error st2 "No rule to close")
      · rw [if_neg hnil] at hstep
        have heq : { st with rules := st.rules.dropLast } = st2 := Except.ok.inj hstep
        intro r hr
        rw [← heq] at hr
        simp only at hr
        exact hst r ((List.dropLast_prefix st.rules).subset hr)
    · have hEND2 : pyStartsWith (pyStrip l) "//// ENDIF" = false := by simpa using hEND
      rw [clean_step_content config st l hIF2 hEND2] at hstep
      cases heval : eval_rules config st.rules with
      | error e =>
        rw [heval] at hstep
        exact absurd hstep.symm (except_ok_ne_error st2 e)
      | ok bv =>
        rw [heval] at hstep
        cases bv with
        | true =>
          have heq : { st with out := st.out ++ [l] } = st2 := Except.ok.inj hstep
          intro r hr
          rw [← heq] at hr
          simp only at hr
          exact hst r hr
        | false =>
          have heq : st = st2 := Except.ok.inj hstep
          intro r hr
          rw [← heq] at hr
          exact hst r hr

theorem clean_fold_rules_ops (config : List (String × String)) :
    ∀ (lines : List String) (st fin : CleanState),
      (∀ r ∈ st.rules, r.2.1 = "==") →
      lines.foldlM (clean_step config) st = Except.ok fin →
      ∀ r ∈ fin.rules, r.2.1 = "==" := by
  intro lines
  induction lines with
  | nil =>
    intro st fin hst hok
    have heq : st = fin := Except.ok.inj hok
    subst heq
    exact hst
  | cons l rest ih =>
    intro st fin hst hok
    rw [List.foldlM_cons] at hok
    cases hstep : clean_step config st l with
    | error e =>
      rw [hstep, except_error_bind] at hok
      exact absurd hok.symm (except_ok_ne_error fin e)
    | ok st2 =>
      rw [hstep, except_ok_bind] at hok
      exact ih st2 fin (clean_step_rules_ops config st st2 l hst hstep) hok

theorem eval_rules_missing_key (config : List (String × String)) (k v : String)
    (rules1 rules2 : List Rule)
    (hall : allHold config rules1 = true)
    (hops : ∀ r ∈ rules1, r.2.1 = "==")
    (hk : lookup config k = none) :
    eval_rules config (rules1 ++ (k, "==", v) :: rules2)
      = Except.error ("KeyError: " ++ k) := by
  induction rules1 with
  | nil => simp [eval_rules, hk]
  | cons r rs ih =>
    obtain ⟨k1, op1, v1⟩ := r
    have hop1 : op1 = "==" := hops (k1, op1, v1) (by simp)
    subst hop1
    simp only [allHold, List.all_cons, Bool.and_eq_true, beq_iff_eq] at hall
    obtain ⟨h1, h2⟩ := hall
    have h2a : allHold config rs = true := by
      simpa [allHold] using h2
    simp only [List.cons_append, eval_rules, beq_self_eq_true, if_true, h1]
    exact ih h2a (fun r hr => hops r (by simp [hr]))

/-- C10 (corrected): at any point of any file.  If a run of the preprocessor
reaches a state whose condition stack contains the rule of an IF directive
naming an absent key, with every condition pushed before it holding, then the
next content line is fatal: the write loop passes the earlier (true)
conditions, reads the absent key, and preprocessing stops with exactly that
KeyError, rather than treating the condition as false.  The prefix, the
depth of the stack, the conditions pushed above the absent key and the rest
of the file are all arbitrary.  Together with the counterexample (an
enclosing false condition makes the loop break before the absent key is
read, suppressing the line with no error) this bounds exactly when the
missing key is fatal. -/
theorem c10_missing_key_raises (config : List (String × String)) (pre : List String)
    (st : CleanState) (k v : String) (rules1 rules2 : List Rule) (l : String)
    (rest : List String)
    (hpre : pre.foldlM (clean_step config) ⟨[], []⟩ = Except.ok st)
    (hsplit : st.rules = rules1 ++ (k, "==", v) :: rules2)
    (hall : allHold config rules1 = true)
    (hk : lookup config k = none)
    (hl1 : isIFLine l = false) (hl2 : isENDIFLine l = false) :
    clean_mjs config (pre ++ l :: rest) = Except.error ("KeyError: " ++ k) := by
  have hops : ∀ r ∈ st.rules, r.2.1 = "==" :=
    clean_fold_rules_ops config pre ⟨[], []⟩ st (by simp) hpre
  have hops1 : ∀ r ∈ rules1, r.2.1 = "==" := by
    intro r hr
    exact hops r (by rw [hsplit]; exact List.mem_append.mpr (Or.inl hr))
  have heval : eval_rules config st.rules = Except.error ("KeyError: " ++ k) := by
    rw [hsplit]
    exact eval_rules_missing_key config k v rules1 rules2 hall hops1 hk
  have hIF2 : pyStartsWith (pyStrip l) "//// IF" = false := by
    simpa [isIFLine] using hl1
  have hEND2 : pyStartsWith (pyStrip l) "//// ENDIF" = false := by
    have h := hl2
    simp [isENDIFLine, isIFLine, hIF2] at h
    exact h
  have hstep : clean_step config st l = Except.error ("KeyError: " ++ k) := by
    rw [clean_step_content config st l hIF2 hEND2, heval]
  unfold clean_mjs
  rw [List.foldlM_append, hpre, except_ok_bind, List.foldlM_cons, hstep, except_error_bind]
  rfl

theorem c10_missing_key_raises_witness :
    clean_mjs [("stage", "prod")]
        (["x", "//// IF stage prod", "y", "//// IF missing q"] ++ "content" :: ["z"])
      = Except.error ("KeyError: " ++ "missing") :=
  c10_missing_key_raises [("stage", "prod")]
    ["x", "//// IF stage prod", "y", "//// IF missing q"]
    ⟨[("stage", "==", "prod"), ("missing", "==", "q")], ["x", "y"]⟩ "missing" "q"
    [("stage", "==", "prod")] [] "content" ["z"]
    (by decide) (by decide) (by decide) (by decide) (by decide) (by decide)

/-! ## Deployment dependencies and identities (C1, C2) -/

theorem deploymentDeps_aws_build (H : String → String) (b : Builder) (ms : List MethodRec) :
    deploymentDeps (aws_build_apigateway H b ms)
      = ["apiGateway" :: ms.map (fun m => m.hash ++ "Stack")] := by
  unfold aws_build_apigateway deploymentDeps
  simp only [List.filterMap_append, List.filterMap_cons, List.filterMap_nil,
    List.filterMap_map]
  have h1 : ∀ ra : List String,
      ra.filterMap ((fun p : String × TRes =>
          match p.2 with | TRes.deployment d => some d | _ => none)
        ∘ (fun r =>
          (H r ++ "Resource",
           TRes.resource
             (if (pySplit r).length > 1 then ParentRef.ref (H (parent_path r) ++ "Resource")
              else ParentRef.rootResourceId)
             (((pySplit r).getLast?).getD "")))) = [] := by
    intro ra
    exact List.filterMap_eq_nil_iff.mpr (fun a _ => rfl)
  have h2 : ∀ rm : List (String × List String),
      rm.filterMap ((fun p : String × TRes =>
          match p.2 with | TRes.deployment d => some d | _ => none)
        ∘ (fun p => (H p.1 ++ "ResourceOPTIONS", corsNode H p.1))) = [] := by
    intro rm
    exact List.filterMap_eq_nil_iff.mpr (fun a _ => rfl)
  have h3 : ms.filterMap ((fun p : String × TRes =>
          match p.2 with | TRes.deployment d => some d | _ => none)
        ∘ (fun m =>
          (m.hash ++ "Stack",
           TRes.stack ("https://" ++ b.aws_bucket ++ ".s3.amazonaws.com/API/" ++ m.json)
             (if m.resource.length > 0 then ParentRef.ref (H m.resource ++ "Resource")
              else ParentRef.rootResourceId)))) = [] :=
    List.filterMap_eq_nil_iff.mpr (fun a _ => rfl)
  rw [h1, h2, h3]
  simp

/-- C1 (corrected): the deployment node of the built template has exactly one
DependsOn list, and it is apiGateway followed by the nested stack logical id
of every EndpointDescriptor, in order: it contains the stack of every method,
and it never contains the logical id of any synthesized CORS OPTIONS node (a
string ending in ResourceOPTIONS cannot equal apiGateway or a string ending
in Stack). -/
theorem c1_deployment_dependencies (H : String → String) (b : Builder) (ms : List MethodRec) :
    deploymentDeps (aws_build_apigateway H b ms)
        = ["apiGateway" :: ms.map (fun m => m.hash ++ "Stack")]
      ∧ (∀ m ∈ ms, (m.hash ++ "Stack") ∈ "apiGateway" :: ms.map (fun m2 => m2.hash ++ "Stack"))
      ∧ (∀ r, (H r ++ "ResourceOPTIONS")
          ∉ "apiGateway" :: ms.map (fun m2 => m2.hash ++ "Stack")) := by
  refine ⟨deploymentDeps_aws_build H b ms, ?_, ?_⟩
  · intro m hm
    exact List.mem_cons.mpr (Or.inr (List.mem_map.mpr ⟨m, hm, rfl⟩))
  · intro r hmem
    rcases List.mem_cons.mp hmem with heq | hmem2
    · have hlast := congrArg (fun s => s.data.getLast?) heq
      simp only at hlast
      rw [getLast?_string_append (H r) "ResourceOPTIONS" (by decide)] at hlast
      exact absurd hlast (by decide)
    · rcases List.mem_map.mp hmem2 with ⟨m, _, heq⟩
      have hlast := congrArg (fun s => s.data.getLast?) heq
      simp only at hlast
      rw [getLast?_string_append m.hash "Stack" (by decide),
        getLast?_string_append (H r) "ResourceOPTIONS" (by decide)] at hlast
      exact absurd hlast (by decide)

theorem get_methods_resource_independent (H H2 : String → String) (d d2 ptr ptr2 : String)
    (mt mt2 : String → Nat) (t : FileTree) (p : String) :
    (get_methods H d ptr mt t p).map (fun m => m.resource)
      = (get_methods H2 d2 ptr2 mt2 t p).map (fun m => m.resource) := by
  induction t generalizing p with
  | file => rfl
  | dirNil => rfl
  | dirCons k v rest ihv ihr =>
    simp only [get_methods, List.map_append]
    rw [ihr p]
    by_cases hk : k ∈ http_methods
    · simp [hk, mkMethodRec]
    · rw [if_neg (by simpa using hk), if_neg (by simpa using hk)]
      rw [ihv (pjoin p k)]

theorem get_methods_hash_shape (H : String → String) (d ptr : String) (mt : String → Nat)
    (t : FileTree) (p : String) :
    ∀ m ∈ get_methods H d ptr mt t p,
      ∃ pd, m.path_sources = pjoin pd m.method
        ∧ m.hash = H (d ++ "-" ++ pd ++ "/" ++ m.method) := by
  induction t generalizing p with
  | file => intro m hm; simp [get_methods] at hm
  | dirNil => intro m hm; simp [get_methods] at hm
  | dirCons k v rest ihv ihr =>
    intro m hm
    simp only [get_methods] at hm
    rcases List.mem_append.mp hm with h1 | h2
    · by_cases hk : http_methods.contains k
      · rw [if_pos hk] at h1
        have hme : m = mkMethodRec H d ptr mt p k := by simpa using h1
        subst hme
        exact ⟨p, rfl, rfl⟩
      · rw [if_neg hk] at h1
        exact ihv (pjoin p k) m h1
    · exact ihr p m h2

theorem resourceIds_aws_build (H : String → String) (b : Builder) (ms : List MethodRec) :
    resourceIds (aws_build_apigateway H b ms)
      = (resources_all_of ((resources_methods_of ms).map (fun q => q.1))).map
          (fun r => H r ++ "Resource") := by
  unfold aws_build_apigateway resourceIds
  simp only [List.filterMap_append, List.filterMap_cons, List.filterMap_nil,
    List.filterMap_map]
  have h2 : ∀ rm : List (String × List String),
      rm.filterMap ((fun p : String × TRes =>
          match p.2 with | TRes.resource _ _ => some p.1 | _ => none)
        ∘ (fun p => (H p.1 ++ "ResourceOPTIONS", corsNode H p.1))) = [] := by
    intro rm
    exact List.filterMap_eq_nil_iff.mpr (fun a _ => rfl)
  have h3 : ms.filterMap ((fun p : String × TRes =>
          match p.2 with | TRes.resource _ _ => some p.1 | _ => none)
        ∘ (fun m =>
          (m.hash ++ "Stack",
           TRes.stack ("https://" ++ b.aws_bucket ++ ".s3.amazonaws.com/API/" ++ m.json)
             (if m.resource.length > 0 then ParentRef.ref (H m.resource ++ "Resource")
              else ParentRef.rootResourceId)))) = [] :=
    List.filterMap_eq_nil_iff.mpr (fun a _ => rfl)
  have h1 : ∀ ra : List String,
      ra.filterMap ((fun p : String × TRes =>
          match p.2 with | TRes.resource _ _ => some p.1 | _ => none)
        ∘ (fun r =>
          (H r ++ "Resource",
           TRes.resource
             (if (pySplit r).length > 1 then ParentRef.ref (H (parent_path r) ++ "Resource")
              else ParentRef.rootResourceId)
             (((pySplit r).getLast?).getD ""))))
        = ra.map (fun r => H r ++ "Resource") := by
    intro ra
    induction ra with
    | nil => rfl
    | cons r rs ih => simp [List.filterMap_cons, ih]
  rw [h1, h2, h3]
  simp

/-- C2 (corrected): what the identities really are.  (1) The resource path of
every discovered method is independent of the deployer (and of the digest,
the temporal root and the mtimes).  (2) Every method identity is the digest
of deployer ++ "-" ++ (full source path of the verb directory) ++ "/" ++
verb: a pure function of deployer, filesystem location and verb - so the
identity does change when the source root is relocated (see the
counterexample), against the claim.  (3) The logical ids of the resource
nodes are digests of the resource paths alone - the deployer appears nowhere
in them, against the claim that resource identities incorporate the
deployer. -/
theorem c2_identity_characterization (H H2 : String → String) (d d2 ptr ptr2 : String)
    (mt mt2 : String → Nat) (t : FileTree) (p : String) (b : Builder) (ms : List MethodRec) :
    ((get_methods H d ptr mt t p).map (fun m => m.resource)
        = (get_methods H2 d2 ptr2 mt2 t p).map (fun m => m.resource))
      ∧ (∀ m ∈ get_methods H d ptr mt t p,
          ∃ pd, m.path_sources = pjoin pd m.method
            ∧ m.hash = H (d ++ "-" ++ pd ++ "/" ++ m.method))
      ∧ resourceIds (aws_build_apigateway H b ms)
          = (resources_all_of ((resources_methods_of ms).map (fun q => q.1))).map
              (fun r => H r ++ "Resource") :=
  ⟨get_methods_resource_independent H H2 d d2 ptr ptr2 mt mt2 t p,
   get_methods_hash_shape H d ptr mt t p,
   resourceIds_aws_build H b ms⟩

/-! ## Resource path computation (C3) -/

theorem get_methods_resources_eq_spec_aux (H : String → String) (d ptr : String)
    (mt : String → Nat) (a b2 : String) :
    ∀ (t : FileTree) (p : String) (segs : List String),
      wfTree t = true →
      pySplit p = a :: b2 :: segs →
      p ≠ "" →
      p.data.getLast? ≠ some '/' →
      (get_methods H d ptr mt t p).map (fun m => m.resource) = methodResourcesSpec t segs := by
  intro t
  induction t with
  | file => intro p segs _ _ _ _; rfl
  | dirNil => intro p segs _ _ _ _; rfl
  | dirCons k v rest ihv ihr =>
    intro p segs hwf hp hpne hplast
    simp only [wfTree, Bool.and_eq_true] at hwf
    obtain ⟨⟨⟨hkne, hkfree⟩, hwv⟩, hwr⟩ := hwf
    have hkne2 : k ≠ "" := by simpa using hkne
    have hpj : pjoin p k = p ++ "/" ++ k := pjoin_eq_append p k hpne hplast hkfree
    have hsplit : pySplit (pjoin p k) = a :: b2 :: (segs ++ [k]) := by
      rw [hpj, pySplit_append_slashFree p k hkfree, hp]
      rfl
    simp only [get_methods, methodResourcesSpec, List.map_append]
    rw [ihr p segs hwr hp hpne hplast]
    by_cases hk : k ∈ http_methods
    · rw [if_pos (by simpa using hk), if_pos (by simpa using hk)]
      simp only [List.map_cons, List.map_nil, mkMethodRec]
      rw [hsplit]
      simp [List.dropLast_concat]
    · rw [if_neg (by simpa using hk), if_neg (by simpa using hk)]
      have hne2 : pjoin p k ≠ "" := by
        rw [hpj]
        intro hcon
        have hdcon := congrArg String.data hcon
        simp [String.data_append] at hdcon
      have hlast2 : (pjoin p k).data.getLast? ≠ some '/' := by
        obtain ⟨c, hc, hcne⟩ := slashFree_getLast k hkne2 hkfree
        have hkd : k.data ≠ [] := fun hcon => hkne2 ((data_eq_nil_iff k).mp hcon)
        rw [hpj, getLast?_string_append (p ++ "/") k hkd, hc]
        intro hcon
        exact hcne (by injection hcon)
      rw [ihv (pjoin p k) (segs ++ [k]) hwv hsplit hne2 hlast2]

/-- C3 (corrected): the amended statement.  For every well formed tree
(nonempty slash free directory names) and every configured source root that
contributes exactly one path component (nonempty and slash free, the only
case in which components [2:-1] of the full verb path are the segments
between the API folder and the verb), the resource path of every discovered
method equals the slash joined directory segments strictly between the API
root folder and the verb leaf; the counterexample shows the equality fails
for a deeper root. -/
theorem c3_resource_segments (H : String → String) (d ptr root : String) (mt : String → Nat)
    (t : FileTree) (hroot : root ≠ "") (hrootf : slashFree root = true)
    (ht : wfTree t = true) :
    (get_methods_top H d root ptr mt t).map (fun m => m.resource)
      = methodResourcesSpec t [] := by
  unfold get_methods_top
  have hlast : root.data.getLast? ≠ some '/' := by
    obtain ⟨c, hc, hcne⟩ := slashFree_getLast root hroot hrootf
    rw [hc]
    intro hcon
    exact hcne (by injection hcon)
  have hpj : pjoin root "API" = root ++ "/" ++ "API" :=
    pjoin_eq_append root "API" hroot hlast (by decide)
  have hsplit : pySplit (pjoin root "API") = root :: "API" :: [] := by
    rw [hpj, pySplit_append_slashFree root "API" (by decide),
      pySplit_of_slashFree root hrootf]
    rfl
  have hne : pjoin root "API" ≠ "" := by
    rw [hpj]
    intro hcon
    have hdcon := congrArg String.data hcon
    simp [String.data_append] at hdcon
  have hlast2 : (pjoin root "API").data.getLast? ≠ some '/' := by
    rw [hpj, getLast?_string_append (root ++ "/") "API" (by decide)]
    decide
  exact get_methods_resources_eq_spec_aux H d ptr mt root "API" t (pjoin root "API") []
    ht hsplit hne hlast2

theorem c3_resource_segments_witness :
    (get_methods_top id "dep" "proj" "tmp" (fun _ => 7) treeEx).map (fun m => m.resource)
      = methodResourcesSpec treeEx [] :=
  c3_resource_segments id "dep" "tmp" "proj" (fun _ => 7) treeEx (by decide) (by decide)
    (by decide)

/-! ## CORS synthesis (C5) -/

theorem string_append_right_cancel {a b : String} (s : String) (h : a ++ s = b ++ s) :
    a = b := by
  apply string_ext
  have hd := congrArg String.data h
  rw [String.data_append, String.data_append] at hd
  exact List.append_cancel_right hd

theorem hasKey_iff_mem (l : List (String × List String)) (r : String) :
    hasKey l r = true ↔ r ∈ l.map Prod.fst := by
  simp [hasKey, List.any_eq_true, List.mem_map]

theorem add_resource_method_cons_eq (k : String) (vs : List String)
    (rest : List (String × List String)) (r v : String) (h : k = r) :
    add_resource_method ((k, vs) :: rest) r v = (k, vs ++ [v]) :: rest := by
  simp [add_resource_method, h]

theorem add_resource_method_cons_ne (k : String) (vs : List String)
    (rest : List (String × List String)) (r v : String) (h : k ≠ r) :
    add_resource_method ((k, vs) :: rest) r v = (k, vs) :: add_resource_method rest r v := by
  simp [add_resource_method, h]

theorem getVerbs_cons_eq (k : String) (vs : List String)
    (l : List (String × List String)) (r : String) (h : k = r) :
    getVerbs ((k, vs) :: l) r = vs := by
  simp [getVerbs, List.find?_cons, h]

theorem getVerbs_cons_ne (k : String) (vs : List String)
    (l : List (String × List String)) (r : String) (h : k ≠ r) :
    getVerbs ((k, vs) :: l) r = getVerbs l r := by
  simp [getVerbs, List.find?_cons, h]

theorem hasKey_cons (k : String) (vs : List String)
    (l : List (String × List String)) (r : String) :
    hasKey ((k, vs) :: l) r = ((k == r) || hasKey l r) := by
  simp [hasKey, List.any_cons]

theorem getVerbs_add_self (acc : List (String × List String)) (r v : String) :
    getVerbs (add_resource_method acc r v) r = getVerbs acc r ++ [v] := by
  induction acc with
  | nil => simp [add_resource_method, getVerbs]
  | cons p rest ih =>
    obtain ⟨k, vs⟩ := p
    by_cases hk : k = r
    · rw [add_resource_method_cons_eq k vs rest r v hk, getVerbs_cons_eq k (vs ++ [v]) rest r hk,
        getVerbs_cons_eq k vs rest r hk]
    · rw [add_resource_method_cons_ne k vs rest r v hk,
        getVerbs_cons_ne k vs (add_resource_method rest r v) r hk,
        getVerbs_cons_ne k vs rest r hk, ih]

theorem getVerbs_add_other (acc : List (String × List String)) (r v r2 : String)
    (h : r2 ≠ r) :
    getVerbs (add_resource_method acc r v) r2 = getVerbs acc r2 := by
  induction acc with
  | nil =>
    simp only [add_resource_method, getVerbs, List.find?_cons]
    rw [show ((r == r2) : Bool) = false from by simpa using fun he => h he.symm]
  | cons p rest ih =>
    obtain ⟨k, vs⟩ := p
    by_cases hk : k = r
    · rw [add_resource_method_cons_eq k vs rest r v hk]
      by_cases hk2 : k = r2
      · exact absurd (hk2.symm.trans hk) h
      · rw [getVerbs_cons_ne k (vs ++ [v]) rest r2 hk2, getVerbs_cons_ne k vs rest r2 hk2]
    · rw [add_resource_method_cons_ne k vs rest r v hk]
      by_cases hk2 : k = r2
      · rw [getVerbs_cons_eq k vs (add_resource_method rest r v) r2 hk2,
          getVerbs_cons_eq k vs rest r2 hk2]
      · rw [getVerbs_cons_ne k vs (add_resource_method rest r v) r2 hk2,
          getVerbs_cons_ne k vs rest r2 hk2, ih]

theorem hasKey_add (acc : List (String × List String)) (r v r2 : String) :
    hasKey (add_resource_method acc r v) r2 = (hasKey acc r2 || r == r2) := by
  induction acc with
  | nil =>
    simp only [add_resource_method, hasKey, List.any_cons, List.any_nil]
    by_cases h2 : r = r2 <;> simp [h2]
  | cons p rest ih =>
    obtain ⟨k, vs⟩ := p
    by_cases hk : k = r
    · rw [add_resource_method_cons_eq k vs rest r v hk, hasKey_cons, hasKey_cons]
      subst hk
      by_cases h2 : k = r2 <;> simp [h2]
    · rw [add_resource_method_cons_ne k vs rest r v hk, hasKey_cons, hasKey_cons, ih,
        Bool.or_assoc]

theorem keys_add (acc : List (String × List String)) (r v : String) :
    (add_resource_method acc r v).map Prod.fst
      = if hasKey acc r then acc.map Prod.fst else acc.map Prod.fst ++ [r] := by
  induction acc with
  | nil => simp [add_resource_method, hasKey]
  | cons p rest ih =>
    obtain ⟨k, vs⟩ := p
    by_cases hk : k = r
    · rw [add_resource_method_cons_eq k vs rest r v hk]
      have hhk : hasKey ((k, vs) :: rest) r = true := by
        rw [hasKey_cons]
        simp [hk]
      rw [hhk]
      simp
    · rw [add_resource_method_cons_ne k vs rest r v hk]
      have hcons : hasKey ((k, vs) :: rest) r = hasKey rest r := by
        rw [hasKey_cons]
        simp [hk]
      rw [hcons]
      simp only [List.map_cons]
      rw [ih]
      by_cases h2 : hasKey rest r <;> simp [h2]

theorem keysNodup_add (acc : List (String × List String)) (r v : String)
    (h : (acc.map Prod.fst).Nodup) :
    ((add_resource_method acc r v).map Prod.fst).Nodup := by
  rw [keys_add]
  by_cases hk : hasKey acc r
  · simp [hk, h]
  · simp only [hk, Bool.false_eq_true, if_false]
    have hmem : r ∉ acc.map Prod.fst := by
      intro hcon
      exact hk ((hasKey_iff_mem acc r).mpr hcon)
    simp [List.nodup_append, h, hmem]

theorem getVerbs_fold (ms : List MethodRec) :
    ∀ (acc : List (String × List String)) (r : String),
      getVerbs (ms.foldl (fun acc m => add_resource_method acc m.resource m.method) acc) r
        = getVerbs acc r ++ (ms.filter (fun m => m.resource == r)).map (fun m => m.method) := by
  induction ms with
  | nil => intro acc r; simp
  | cons m ms ih =>
    intro acc r
    simp only [List.foldl_cons]
    rw [ih]
    by_cases hr : m.resource = r
    · rw [List.filter_cons_of_pos (by simpa using hr)]
      rw [show add_resource_method acc m.resource m.method
          = add_resource_method acc r m.method from by rw [hr]]
      rw [getVerbs_add_self acc r m.method]
      simp
    · rw [List.filter_cons_of_neg (by simpa using hr)]
      rw [getVerbs_add_other acc m.resource m.method r (fun he => hr he.symm)]

theorem hasKey_fold (ms : List MethodRec) :
    ∀ (acc : List (String × List String)) (r : String),
      hasKey (ms.foldl (fun acc m => add_resource_method acc m.resource m.method) acc) r
        = (hasKey acc r || ms.any (fun m => m.resource == r)) := by
  induction ms with
  | nil => intro acc r; simp
  | cons m ms ih =>
    intro acc r
    simp only [List.foldl_cons, List.any_cons]
    rw [ih, hasKey_add]
    by_cases h1 : hasKey acc r = true <;> by_cases h2 : m.resource = r <;>
      simp [h1, h2, Bool.or_comm, Bool.or_assoc]

theorem keysNodup_fold (ms : List MethodRec) :
    ∀ (acc : List (String × List String)), (acc.map Prod.fst).Nodup →
      ((ms.foldl (fun acc m => add_resource_method acc m.resource m.method) acc).map
        Prod.fst).Nodup := by
  induction ms with
  | nil => intro acc h; simpa using h
  | cons m ms ih =>
    intro acc h
    simp only [List.foldl_cons]
    exact ih _ (keysNodup_add acc m.resource m.method h)

theorem assoc_filter_of_nodup (l : List (String × List String)) (r : String)
    (h : (l.map Prod.fst).Nodup) :
    l.filter (fun p => p.1 == r)
      = if hasKey l r then [(r, getVerbs l r)] else [] := by
  induction l with
  | nil => simp [hasKey]
  | cons p rest ih =>
    obtain ⟨k, vs⟩ := p
    simp only [List.map_cons, List.nodup_cons] at h
    obtain ⟨hkn, hrest⟩ := h
    by_cases hk : k = r
    · have hno : hasKey rest r = false := by
        cases hck : hasKey rest r
        · rfl
        · exact absurd (hk ▸ (hasKey_iff_mem rest r).mp hck) hkn
      rw [List.filter_cons_of_pos (by simpa using hk)]
      rw [ih hrest, hno]
      have hhk : hasKey ((k, vs) :: rest) r = true := by
        rw [hasKey_cons]
        simp [hk]
      rw [hhk, getVerbs_cons_eq k vs rest r hk]
      simp [hk]
    · rw [List.filter_cons_of_neg (by simpa using hk)]
      rw [ih hrest]
      have hcons : hasKey ((k, vs) :: rest) r = hasKey rest r := by
        rw [hasKey_cons]
        simp [hk]
      rw [hcons, getVerbs_cons_ne k vs rest r hk]

theorem mem_keys_resources (ms : List MethodRec) (p : String × List String)
    (hp : p ∈ resources_methods_of ms) : p.1 ∈ ms.map (fun m => m.resource) := by
  have h2 : hasKey (resources_methods_of ms) p.1 = true := by
    simp only [hasKey, List.any_eq_true]
    exact ⟨p, hp, by simp⟩
  unfold resources_methods_of at h2
  rw [hasKey_fold ms [] p.1] at h2
  simp only [hasKey, List.any_nil, Bool.false_or] at h2
  simp only [List.any_eq_true, beq_iff_eq] at h2
  rcases h2 with ⟨m, hm, he⟩
  exact List.mem_map.mpr ⟨m, hm, he⟩

/-- C5 (confirmed): for any resource path r carrying at least one method, and
assuming (as the spec does of the digest) that the digest does not collide on
the finitely many resource paths of the build, the template holds exactly one
synthesized CORS OPTIONS entry under the id digest(r) ++ ResourceOPTIONS when
r has no explicit OPTIONS descriptor (a MOCK integration carrying the three
Access-Control-Allow response headers, the corsNode of r), and none at all
when r has an explicit OPTIONS descriptor: explicit wins and is never
overwritten. -/
theorem c5_cors_synthesis (H : String → String) (b : Builder) (ms : List MethodRec)
    (r : String) (hr : r ∈ ms.map (fun m => m.resource))
    (hinj : ∀ r1 ∈ ms.map (fun m => m.resource), ∀ r2 ∈ ms.map (fun m => m.resource),
      H r1 = H r2 → r1 = r2) :
    corsNodesFor H (aws_build_apigateway H b ms) r
      = if ms.any (fun m => m.resource == r && m.method == "OPTIONS") then []
        else [(H r ++ "ResourceOPTIONS", corsNode H r)] := by
  unfold corsNodesFor aws_build_apigateway
  rw [List.filter_append, List.filter_append, List.filter_append]
  have hbase : List.filter
      (fun p => isCorsNode p.2 && p.1 == H r ++ "ResourceOPTIONS")
      [("apiGateway", TRes.restApi b.name),
       ("apiGatewayDeployment" ++ toString b.timestamp,
        TRes.deployment ("apiGateway" :: ms.map (fun m => m.hash ++ "Stack"))),
       ("apiGatewayStage",
        TRes.stage ("apiGatewayDeployment" ++ toString b.timestamp) b.aws_stage)] = [] := by
    simp [isCorsNode]
  have hres : List.filter
      (fun p => isCorsNode p.2 && p.1 == H r ++ "ResourceOPTIONS")
      ((resources_all_of ((resources_methods_of ms).map (fun p => p.1))).map
        (fun r2 =>
          (H r2 ++ "Resource",
           TRes.resource
             (if (pySplit r2).length > 1 then ParentRef.ref (H (parent_path r2) ++ "Resource")
              else ParentRef.rootResourceId)
             (((pySplit r2).getLast?).getD "")))) = [] := by
    apply List.filter_eq_nil_iff.mpr
    intro p hp
    rcases List.mem_map.mp hp with ⟨r2, _, he⟩
    subst he
    simp [isCorsNode]
  have hstack : List.filter
      (fun p => isCorsNode p.2 && p.1 == H r ++ "ResourceOPTIONS")
      (ms.map (fun m =>
        (m.hash ++ "Stack",
         TRes.stack ("https://" ++ b.aws_bucket ++ ".s3.amazonaws.com/API/" ++ m.json)
           (if m.resource.length > 0 then ParentRef.ref (H m.resource ++ "Resource")
            else ParentRef.rootResourceId)))) = [] := by
    apply List.filter_eq_nil_iff.mpr
    intro p hp
    rcases List.mem_map.mp hp with ⟨m, _, he⟩
    subst he
    simp [isCorsNode]
  rw [hbase, hres, hstack]
  simp only [List.nil_append, List.append_nil]
  have hcors : List.filter
      (fun p => isCorsNode p.2 && p.1 == H r ++ "ResourceOPTIONS")
      (((resources_methods_of ms).filter (fun p => !(p.2.contains "OPTIONS"))).map
        (fun p => (H p.1 ++ "ResourceOPTIONS", corsNode H p.1)))
      = (((resources_methods_of ms).filter (fun p => !(p.2.contains "OPTIONS"))).filter
          (fun p => p.1 == r)).map
          (fun p => (H p.1 ++ "ResourceOPTIONS", corsNode H p.1)) := by
    rw [List.filter_map]
    congr 1
    apply List.filter_congr
    intro p hp
    have hpmem : p ∈ resources_methods_of ms := (List.mem_filter.mp hp).1
    have hp1 : p.1 ∈ ms.map (fun m => m.resource) := mem_keys_resources ms p hpmem
    simp only [Function.comp, isCorsNode, corsNode, Bool.true_and]
    by_cases he : p.1 = r
    · simp [he]
    · have h1 : (H p.1 ++ "ResourceOPTIONS" == H r ++ "ResourceOPTIONS") = false := by
        simp only [beq_eq_false_iff_ne, ne_eq]
        intro hcon
        exact he (hinj p.1 hp1 r hr (string_append_right_cancel "ResourceOPTIONS" hcon))
      simp [h1, he]
  rw [hcors]
  have hcomm : ((resources_methods_of ms).filter (fun p => !(p.2.contains "OPTIONS"))).filter
      (fun p => p.1 == r)
      = ((resources_methods_of ms).filter (fun p => p.1 == r)).filter
          (fun p => !(p.2.contains "OPTIONS")) := by
    rw [List.filter_filter, List.filter_filter]
    apply List.filter_congr
    intro p _
    rw [Bool.and_comm]
  rw [hcomm]
  have hnodup : ((resources_methods_of ms).map Prod.fst).Nodup :=
    keysNodup_fold ms [] (by simp)
  rw [assoc_filter_of_nodup (resources_methods_of ms) r hnodup]
  have hhas : hasKey (resources_methods_of ms) r = true := by
    unfold resources_methods_of
    rw [hasKey_fold ms [] r]
    simp only [hasKey, List.any_nil, Bool.false_or, List.any_eq_true, beq_iff_eq]
    rcases List.mem_map.mp hr with ⟨m, hm, he⟩
    exact ⟨m, hm, he⟩
  rw [hhas]
  simp only [if_true]
  have hverbs : getVerbs (resources_methods_of ms) r
      = (ms.filter (fun m => m.resource == r)).map (fun m => m.method) := by
    unfold resources_methods_of
    rw [getVerbs_fold ms [] r]
    simp [getVerbs]
  have hopt : ((getVerbs (resources_methods_of ms) r).contains "OPTIONS")
      = ms.any (fun m => m.resource == r && m.method == "OPTIONS") := by
    rw [hverbs]
    cases hc : ms.any (fun m => m.resource == r && m.method == "OPTIONS") with
    | true =>
      simp only [List.any_eq_true, Bool.and_eq_true, beq_iff_eq] at hc
      rcases hc with ⟨m, hm, hres2, hmeth⟩
      have : "OPTIONS" ∈ (ms.filter (fun m => m.resource == r)).map (fun m => m.method) :=
        List.mem_map.mpr ⟨m, List.mem_filter.mpr ⟨hm, by simpa using hres2⟩, hmeth⟩
      simpa using this
    | false =>
      simp only [List.any_eq_false, Bool.and_eq_true, beq_iff_eq] at hc
      have : "OPTIONS" ∉ (ms.filter (fun m => m.resource == r)).map (fun m => m.method) := by
        intro hcon
        rcases List.mem_map.mp hcon with ⟨m, hm2, he⟩
        obtain ⟨hm3, hres3⟩ := List.mem_filter.mp hm2
        exact hc m hm3 ⟨by simpa using hres3, he⟩
      simpa using this
  cases hoptc : ms.any (fun m => m.resource == r && m.method == "OPTIONS") with
  | true =>
    rw [hoptc] at hopt
    rw [List.filter_cons_of_neg (by rw [hopt]; decide), List.filter_nil]
    simp
  | false =>
    rw [hoptc] at hopt
    rw [List.filter_cons_of_pos (by rw [hopt]; decide), List.filter_nil]
    simp

theorem c5_cors_synthesis_witness :
    corsNodesFor id (aws_build_apigateway id builderEx msEx) "users"
      = [("usersResourceOPTIONS", corsNode id "users")] := by
  rw [c5_cors_synthesis id builderEx msEx "users" (by decide) (by decide)]
  decide

end TlalocApiBuilder
